import Mathlib

/-!
# ini.h : a shallow embedding of the parser and of the lookup functions

The definitions follow `src/src/ini.h` function by function and keep its names.

Conventions of the embedding.

* A C `char` is a `Char` (the parser only compares characters with nine ASCII
  constants); a piece of memory holding characters is a `List Char`.
  The text handed to `ini_load` is the list of the characters that precede the
  terminating NUL: reading at the end of the list reads the terminator, and a
  read after that is a read outside the caller's buffer, which has no defined
  result; such a run is `none`.
* `malloc` returns uninitialised memory.  The two tables are functions from the
  slot index to a record whose `int` fields are `Option`s, `none` standing for
  a field that was never assigned.  Using such a field has no defined result
  (`none`).
* `buf` is written only through `ini->buf[buf_pos++] = ...`, starting at
  `buf_pos = 0`; the embedding keeps the list of the bytes written so far, so
  that `buf_pos` is the length of that list.  Bytes after it are uninitialised.
* The sizes of the three allocations are never tested by the code.  They are
  kept as constants (`INI_INITIAL_CAPACITY`, `_INI_BUF_SIZE_DEF`); the tables
  themselves are not truncated, so every statement about the result of a parse
  is a statement about what the code computes when its writes stay inside the
  allocations.
* The C library functions called by the code (`strcmp`, `atoi`) are not part of
  the repository; `strcmp_eq` and `atoi` stand for them and work on the memory
  their pointer arguments point to.
* `int` counters never become negative and are `Nat`; section indices that
  travel through the public interface are `Int` (`INI_NOT_FOUND` is `-1`).
-/

/-! ## Constants and data -/

/-- Value of `INI_NOT_FOUND`. -/
def INI_NOT_FOUND : Int := -1

/-- Value of `INI_GLOBAL_SECTION`. -/
def INI_GLOBAL_SECTION : Int := 0

/-- Number of slots allocated for each table by `ini_create`. -/
def INI_INITIAL_CAPACITY : Nat := 256

/-- Number of bytes allocated for `buf` by `ini_create`. -/
def _INI_BUF_SIZE_DEF : Nat := 16 * 1024

/-- Slot of the section table: the offset of the name in `buf`. -/
structure _ini_section_t where
  name : Option Nat

/-- Slot of the property table (`section_` is the field `section`, a reserved
word here): owning section, offset of the key, offset of the value. -/
structure _ini_property_t where
  section_ : Option Nat
  key : Option Nat
  value : Option Nat

/-- The document `struct ini_t`. -/
structure ini_t where
  sections : Nat → _ini_section_t
  properties : Nat → _ini_property_t
  num_sections : Nat
  num_properties : Nat
  buf : List Char

/-- Parser state flag `_INI_EXPECT_NONE`. -/
def _INI_EXPECT_NONE : Nat := 0 <<< 0
/-- Parser state flag `_INI_EXPECT_KEY`. -/
def _INI_EXPECT_KEY : Nat := 1 <<< 0
/-- Parser state flag `_INI_EXPECT_SEP`. -/
def _INI_EXPECT_SEP : Nat := 1 <<< 1
/-- Parser state flag `_INI_EXPECT_VAL`. -/
def _INI_EXPECT_VAL : Nat := 1 <<< 2
/-- Parser state flag `_INI_PARSING_KEY`. -/
def _INI_PARSING_KEY : Nat := 1 <<< 3
/-- Parser state flag `_INI_PARSING_VAL`. -/
def _INI_PARSING_VAL : Nat := 1 <<< 4

/-! ## State and character predicates -/

def _ini_any_expected (state : Nat) : Bool :=
  (state &&& (_INI_EXPECT_KEY ||| _INI_EXPECT_VAL ||| _INI_EXPECT_SEP)) != _INI_EXPECT_NONE

def _ini_key_expected (state : Nat) : Bool :=
  (state &&& _INI_EXPECT_KEY) != _INI_EXPECT_NONE

def _ini_val_expected (state : Nat) : Bool :=
  (state &&& _INI_EXPECT_VAL) != _INI_EXPECT_NONE

def _ini_parsing_key (state : Nat) : Bool :=
  (state &&& _INI_PARSING_KEY) != _INI_EXPECT_NONE

def _ini_parsing_val (state : Nat) : Bool :=
  (state &&& _INI_PARSING_VAL) != _INI_EXPECT_NONE

def _ini_is_bracket (c : Char) : Bool := (c == '[') || (c == ']')

def _ini_is_whitespace (c : Char) : Bool := (c == ' ') || (c == '\t')

def _ini_is_delimeter (c : Char) : Bool := c == '='

def _ini_is_comment (c : Char) : Bool := (c == ';') || (c == '#')

def _ini_is_newline (c : Char) : Bool := c == '\n'

/-! ## The parser -/

/-- Local variables of `_ini_parse_data` that live across loop iterations
(`buf_pos` is `ini.buf.length`). -/
structure _ini_locals where
  parser_state : Nat
  in_bracket : Bool
  ini : ini_t

/-- The local `buf_pos`: the number of bytes written to `buf` so far. -/
def _ini_locals.buf_pos (p : _ini_locals) : Nat := p.ini.buf.length

/-- Result of `ini_create`: both counts are zero, nothing else is initialised. -/
def ini_create : ini_t :=
  { sections := fun _ => ⟨none⟩
    properties := fun _ => ⟨none, none, none⟩
    num_sections := 0
    num_properties := 0
    buf := [] }

/-- Body of `_ini_start_section`: returns the document and the new `*state`. -/
def _ini_start_section (ini : ini_t) (pos : Nat) : ini_t × Nat :=
  ({ ini with
      sections := Function.update ini.sections ini.num_sections
        { ini.sections ini.num_sections with name := some pos } },
   _INI_PARSING_KEY)

/-- Body of `_ini_start_key`: returns the document and the new `*state`. -/
def _ini_start_key (ini : ini_t) (pos : Nat) : ini_t × Nat :=
  ({ ini with
      properties := Function.update ini.properties ini.num_properties
        { ini.properties ini.num_properties with
            section_ := some ini.num_sections, key := some pos } },
   _INI_PARSING_KEY)

/-- Body of `_ini_start_val`: returns the document and the new `*state`. -/
def _ini_start_val (ini : ini_t) (pos : Nat) : ini_t × Nat :=
  ({ ini with
      properties := Function.update ini.properties ini.num_properties
        { ini.properties ini.num_properties with value := some pos } },
   _INI_PARSING_VAL)

/-- The statement `ini->buf[buf_pos++] = c`. -/
def _ini_put (ini : ini_t) (c : Char) : ini_t :=
  { ini with buf := ini.buf ++ [c] }

/-- Tail of the loop body, from the comment `handle newline:` on. -/
def _ini_handle_newline (c : Char) (p : _ini_locals) : _ini_locals :=
  if _ini_is_newline c then p
  else { p with ini := _ini_put p.ini c }

/-- Loop body from the comment `begin parsing:` on. -/
def _ini_begin_parsing (c : Char) (p : _ini_locals) : _ini_locals :=
  if _ini_parsing_key p.parser_state then
    if p.in_bracket && _ini_is_bracket c then
      { parser_state := _INI_EXPECT_KEY
        in_bracket := false
        ini := { _ini_put p.ini '\x00' with num_sections := p.ini.num_sections + 1 } }
    else if _ini_is_whitespace c || _ini_is_delimeter c then
      { p with
          parser_state := if _ini_is_delimeter c then _INI_EXPECT_VAL else _INI_EXPECT_SEP
          ini := _ini_put p.ini '\x00' }
    else _ini_handle_newline c p
  else if _ini_parsing_val p.parser_state then
    if _ini_is_newline c then
      { p with
          parser_state := _INI_EXPECT_KEY
          ini := { _ini_put p.ini '\x00' with num_properties := p.ini.num_properties + 1 } }
    else _ini_handle_newline c p
  else _ini_handle_newline c p

/-- One iteration of the `while` loop of `_ini_parse_data` for a character that
is neither the terminator nor a comment marker: the block `get expected:`
followed, unless it ends in `continue`, by the rest of the body. -/
def _ini_parse_char (c : Char) (p : _ini_locals) : _ini_locals :=
  if _ini_any_expected p.parser_state then
    if _ini_is_whitespace c then p
    else if _ini_key_expected p.parser_state then
      if _ini_is_bracket c then
        let r := _ini_start_section p.ini p.buf_pos
        { parser_state := r.2, in_bracket := true, ini := r.1 }
      else
        let r := _ini_start_key p.ini p.buf_pos
        _ini_begin_parsing c { p with parser_state := r.2, ini := r.1 }
    else if _ini_val_expected p.parser_state then
      let r := _ini_start_val p.ini p.buf_pos
      _ini_begin_parsing c { p with parser_state := r.2, ini := r.1 }
    else
      if _ini_is_delimeter c then { p with parser_state := _INI_EXPECT_VAL }
      else _ini_begin_parsing c p
  else _ini_begin_parsing c p

mutual
/-- The loop `while ((c = *src++) != 0)` of `_ini_parse_data`. -/
def _ini_parse_loop : List Char → _ini_locals → Option _ini_locals
  | [], p => some p
  | c :: src, p =>
    if c = '\x00' then some p
    else if _ini_is_comment c then _ini_skip_comment src p
    else _ini_parse_loop src (_ini_parse_char c p)
/-- The inner loop `while (!_ini_is_newline(c)) c = *src++;` and the `continue`
after it.  It does not test for the terminator: at the end of the text it
reads the terminator, which is not a newline, and then reads past it. -/
def _ini_skip_comment : List Char → _ini_locals → Option _ini_locals
  | [], _ => none
  | c :: src, p =>
    if _ini_is_newline c then _ini_parse_loop src p
    else _ini_skip_comment src p
end

/-- The statements of `_ini_parse_data` after the loop. -/
def _ini_parse_finish (p : _ini_locals) : ini_t :=
  if _ini_parsing_val p.parser_state then
    { _ini_put p.ini '\x00' with num_properties := p.ini.num_properties + 1 }
  else p.ini

def _ini_parse_data (src : List Char) : Option ini_t :=
  (_ini_parse_loop src
    { parser_state := _INI_EXPECT_KEY, in_bracket := false, ini := ini_create }).map
    _ini_parse_finish

def ini_load (data : List Char) : Option ini_t := _ini_parse_data data

/-! ## Lookup -/

/-- The pointer `&ini->buf[index]`, as the initialised memory that starts there. -/
def _ini_str (ini : ini_t) (index : Nat) : List Char := ini.buf.drop index

/-- The test `strcmp(a, b) == 0`, where `a` is memory of `buf` (`none`: the
comparison runs into uninitialised bytes) and `b` is a text followed by its
terminator. -/
def strcmp_eq : List Char → List Char → Option Bool
  | [], _ => none
  | c :: _, [] => some (c == '\x00')
  | c :: cs, d :: ds =>
    if c != d then some false
    else if c == '\x00' then some true
    else strcmp_eq cs ds

/-- Loop of `ini_find_section`: `k` iterations remain and the index is `i`. -/
def _ini_find_section_loop (ini : ini_t) (name : List Char) : Nat → Nat → Option Int
  | 0, _ => some INI_NOT_FOUND
  | k + 1, i =>
    match (ini.sections i).name with
    | none => none
    | some off =>
      match strcmp_eq (_ini_str ini off) name with
      | none => none
      | some true => some ((i : Int) + 1)
      | some false => _ini_find_section_loop ini name k (i + 1)

def ini_find_section (ini : ini_t) (name : List Char) : Option Int :=
  _ini_find_section_loop ini name ini.num_sections 0

def ini_section_exists (ini : ini_t) (name : List Char) : Option Bool :=
  (ini_find_section ini name).map (fun r => r != INI_NOT_FOUND)

/-- Loop of `ini_property_exists`: `k` iterations remain and the index is `i`. -/
def _ini_property_exists_loop (ini : ini_t) («section» : Int) (key : List Char) :
    Nat → Nat → Option Bool
  | 0, _ => some false
  | k + 1, i =>
    match (ini.properties i).section_ with
    | none => none
    | some s =>
      if (s : Int) = «section» then
        match (ini.properties i).key with
        | none => none
        | some off =>
          match strcmp_eq (_ini_str ini off) key with
          | none => none
          | some true => some true
          | some false => _ini_property_exists_loop ini «section» key k (i + 1)
      else _ini_property_exists_loop ini «section» key k (i + 1)

def ini_property_exists (ini : ini_t) («section» : Int) (key : List Char) : Option Bool :=
  _ini_property_exists_loop ini «section» key ini.num_properties 0

/-- Loop of `ini_value`: `k` iterations remain and the index is `i`.  The result
is the returned pointer: `some none` is `NULL`, `some (some off)` is
`&ini->buf[off]`. -/
def _ini_value_loop (ini : ini_t) («section» : Int) (key : List Char) :
    Nat → Nat → Option (Option Nat)
  | 0, _ => some none
  | k + 1, i =>
    match (ini.properties i).section_ with
    | none => none
    | some s =>
      if (s : Int) = «section» then
        match (ini.properties i).key with
        | none => none
        | some off =>
          match strcmp_eq (_ini_str ini off) key with
          | none => none
          | some true => (ini.properties i).value.map some
          | some false => _ini_value_loop ini «section» key k (i + 1)
      else _ini_value_loop ini «section» key k (i + 1)

def ini_value (ini : ini_t) («section» : Int) (key : List Char) : Option (Option Nat) :=
  _ini_value_loop ini «section» key ini.num_properties 0

/-! ## Typed accessors -/

/-- Modelled from the spec: `INT_MAX` of `<limits.h>`, absent from the
repository, for a 32-bit `int`. -/
def INT_MAX : Int := 2147483647

/-- Modelled from the spec: `INT_MIN` of `<limits.h>`, absent from the
repository, for a 32-bit `int`. -/
def INT_MIN : Int := -2147483648

/-- Modelled from the spec: the C library predicate `isspace` in the "C"
locale, absent from the repository and used by `atoi`. -/
def isspace (c : Char) : Bool :=
  (c == ' ') || (c == '\t') || (c == '\n') || (c == '\x0b') || (c == '\x0c') || (c == '\r')

/-- Modelled from the spec: first phase of `atoi`, skip white space.  `none`: the bytes written to
`buf` end before a character that is not white space is found. -/
def _atoi_skip : List Char → Option (List Char)
  | [] => none
  | c :: cs => if isspace c then _atoi_skip cs else some (c :: cs)

/-- Modelled from the spec: last phase of `atoi`, accumulate decimal digits up
to the first character that is not a digit.  `none`: the bytes written to `buf` end first. -/
def _atoi_digits : List Char → Nat → Option Nat
  | [], _ => none
  | c :: cs, acc =>
    if c.isDigit then _atoi_digits cs (10 * acc + (c.toNat - '0'.toNat)) else some acc

/-- Modelled from the spec: the `int` result of `atoi`, `none` when the number
is not representable. -/
def _atoi_result (r : Int) : Option Int :=
  if INT_MIN ≤ r ∧ r ≤ INT_MAX then some r else none

/-- Modelled from the spec: the C library function `atoi`, called by
`ini_value_as_int` and not part of the repository.  The specification asks for
the platform's standard leading-run conversion, which stops at the first
character that is not numeric and yields 0 when there is no convertible
prefix; this is the conversion of ISO C: white space is skipped, an optional
sign is read, then the longest run of decimal digits.  The argument is the
memory the pointer points to; `none` stands for a number that does not fit in
an `int` and for a read of bytes that were never written. -/
def atoi (nptr : List Char) : Option Int :=
  match _atoi_skip nptr with
  | none => none
  | some [] => none
  | some (c :: cs) =>
    if c = '-' then (_atoi_digits cs 0).bind (fun n => _atoi_result (-(n : Int)))
    else if c = '+' then (_atoi_digits cs 0).bind (fun n => _atoi_result (n : Int))
    else (_atoi_digits (c :: cs) 0).bind (fun n => _atoi_result (n : Int))

/-- `ini_value_as_int`: `atoi` applied to the pointer returned by `ini_value`;
passing `NULL` to `atoi` has no defined result. -/
def ini_value_as_int (ini : ini_t) («section» : Int) (key : List Char) : Option Int :=
  match ini_value ini «section» key with
  | some (some off) => atoi (_ini_str ini off)
  | _ => none

/-- `ini_value_as_bool`: `strcmp(value, "true") == 0` on the pointer returned by
`ini_value`; passing `NULL` to `strcmp` has no defined result. -/
def ini_value_as_bool (ini : ini_t) («section» : Int) (key : List Char) : Option Bool :=
  match ini_value ini «section» key with
  | some (some off) => strcmp_eq (_ini_str ini off) "true".toList
  | _ => none

/-! ## Reading the tables -/

/-- The NUL-terminated string that starts a piece of `buf` memory; `none` when
no terminator was written. -/
def _ini_cstr : List Char → Option (List Char)
  | [] => none
  | c :: cs => if c = '\x00' then some [] else (_ini_cstr cs).map (fun s => c :: s)

/-- The string a pointer returned by `ini_value` points to. -/
def ini_string_at (ini : ini_t) (off : Nat) : Option (List Char) :=
  _ini_cstr (_ini_str ini off)

/-- The string returned by `ini_value`, read through the returned pointer:
`some none` for `NULL`. -/
def ini_value_string (ini : ini_t) («section» : Int) (key : List Char) :
    Option (Option (List Char)) :=
  match ini_value ini «section» key with
  | none => none
  | some none => some none
  | some (some off) => (ini_string_at ini off).map some

/-- Name of the section in slot `i`. -/
def ini_section_name (ini : ini_t) (i : Nat) : Option (List Char) :=
  (ini.sections i).name.bind (ini_string_at ini)

/-- Owning section, key and value of the property in slot `i`. -/
def ini_property_entry (ini : ini_t) (i : Nat) : Option (Nat × List Char × List Char) :=
  match (ini.properties i).section_, (ini.properties i).key, (ini.properties i).value with
  | some s, some k, some v =>
    match ini_string_at ini k, ini_string_at ini v with
    | some ks, some vs => some (s, ks, vs)
    | _, _ => none
  | _, _, _ => none

/-- The section table: the names of slots `0 .. num_sections - 1`. -/
def ini_section_table (ini : ini_t) : List (Option (List Char)) :=
  (List.range ini.num_sections).map (ini_section_name ini)

/-- The property table: the entries of slots `0 .. num_properties - 1`. -/
def ini_property_table (ini : ini_t) : List (Option (Nat × List Char × List Char)) :=
  (List.range ini.num_properties).map (ini_property_entry ini)

/-- Scenario of the specification. -/
def scenario_text : List Char :=
  "network=wireless\n[owner]\nname = John Doe\n[database]\nport=143\n".toList

/-! ## Vocabulary of the claims -/

/-- A character allowed in a key or a section name: no blank, `=`, bracket,
comment marker, newline, and (as in every C string) no NUL. -/
def ini_key_char (c : Char) : Prop :=
  c ≠ ' ' ∧ c ≠ '\t' ∧ c ≠ '=' ∧ c ≠ '[' ∧ c ≠ ']' ∧ c ≠ ';' ∧ c ≠ '#' ∧ c ≠ '\n' ∧ c ≠ '\x00'

/-- A character allowed in a value: no newline, comment marker or NUL. -/
def ini_value_char (c : Char) : Prop := c ≠ '\n' ∧ c ≠ ';' ∧ c ≠ '#' ∧ c ≠ '\x00'

/-- A space or a tab. -/
def ini_space_char (c : Char) : Prop := c = ' ' ∨ c = '\t'

instance ini_key_char_decidable (c : Char) : Decidable (ini_key_char c) := by
  unfold ini_key_char; infer_instance

instance ini_value_char_decidable (c : Char) : Decidable (ini_value_char c) := by
  unfold ini_value_char; infer_instance

instance ini_space_char_decidable (c : Char) : Decidable (ini_space_char c) := by
  unfold ini_space_char; infer_instance
/-- The tables of a document, as lists of names and of (section, key, value). -/
def ini_tables_are (d : ini_t) (names : List (List Char))
    (props : List (Nat × List Char × List Char)) : Prop :=
  ini_section_table d = names.map some ∧ ini_property_table d = props.map some


/-- Every slot of the section table below `num_sections` holds an assigned
offset at which a NUL-terminated name starts. -/
def ini_sections_defined (ini : ini_t) : Prop :=
  ∀ e ∈ ini_section_table ini, e ≠ none

/-- Every slot of the property table below `num_properties` holds an assigned
section index and assigned offsets at which NUL-terminated strings start. -/
def ini_properties_defined (ini : ini_t) : Prop :=
  ∀ e ∈ ini_property_table ini, e ≠ none

instance ini_sections_defined_decidable (ini : ini_t) : Decidable (ini_sections_defined ini) := by
  unfold ini_sections_defined; infer_instance

instance ini_properties_defined_decidable (ini : ini_t) :
    Decidable (ini_properties_defined ini) := by
  unfold ini_properties_defined; infer_instance

/-- The document parsed from the scenario of the specification. -/
def scenario_doc : ini_t := (ini_load scenario_text).getD ini_create

/-- A document in which the key `a` occurs twice in the global section and once
more in section 1, and in which two sections are called `s`. -/
def duplicates_doc : ini_t :=
  (ini_load "a=1\na=2\n[s]\na=3\n[t]\nb=4\n[s]\nc=5\n".toList).getD ini_create

/-- The lines `key=value`, each followed by a newline. -/
def ini_render_properties : List (List Char × List Char) → List Char
  | [] => []
  | kv :: ps => kv.1 ++ ('=' :: kv.2) ++ ('\n' :: ini_render_properties ps)

/-- For each section the line `[name]` followed by its property lines. -/
def ini_render_sections : List (List Char × List (List Char × List Char)) → List Char
  | [] => []
  | s :: ss =>
    ('[' :: s.1) ++ (']' :: '\n' :: ini_render_properties s.2) ++ ini_render_sections ss

/-- A document written canonically: the global properties, then the sections. -/
def ini_render (globals : List (List Char × List Char))
    (secs : List (List Char × List (List Char × List Char))) : List Char :=
  ini_render_properties globals ++ ini_render_sections secs

/-- The property entries of the sections, the first of which has index `i`. -/
def ini_expected_properties :
    Nat → List (List Char × List (List Char × List Char)) → List (Nat × List Char × List Char)
  | _, [] => []
  | i, s :: ss => s.2.map (fun kv => (i, kv.1, kv.2)) ++ ini_expected_properties (i + 1) ss

/-- A key and a value that are valid tokens. -/
def ini_valid_pair (kv : List Char × List Char) : Prop :=
  (∀ c ∈ kv.1, ini_key_char c) ∧ (∀ c ∈ kv.2, ini_value_char c) ∧
    (∀ c ∈ kv.2.head?, ¬ ini_space_char c)

/-- A section with a valid name and a non-empty list of valid pairs. -/
def ini_valid_section (s : List Char × List (List Char × List Char)) : Prop :=
  (∀ c ∈ s.1, ini_key_char c) ∧ s.2 ≠ [] ∧ ∀ kv ∈ s.2, ini_valid_pair kv

instance ini_valid_pair_decidable (kv : List Char × List Char) : Decidable (ini_valid_pair kv) := by
  unfold ini_valid_pair; infer_instance

instance ini_valid_section_decidable (s : List Char × List (List Char × List Char)) :
    Decidable (ini_valid_section s) := by
  unfold ini_valid_section; infer_instance

/-- Global pairs of the scenario of the specification. -/
def scenario_globals : List (List Char × List Char) :=
  [("network".toList, "wireless".toList)]

/-- Sections of the scenario of the specification. -/
def scenario_sections : List (List Char × List (List Char × List Char)) :=
  [("owner".toList, [("name".toList, "John Doe".toList)]),
   ("database".toList, [("port".toList, "143".toList)])]

/-- The number denoted by a run of decimal digits. -/
def ini_decimal (d : List Char) : Nat :=
  Nat.ofDigits 10 (d.reverse.map (fun c => c.toNat - '0'.toNat))

/-- A string with no convertible prefix: after leading white space and an
optional sign there is no decimal digit. -/
def ini_not_convertible (v : List Char) : Prop :=
  match v.dropWhile isspace with
  | [] => True
  | c :: rest =>
    if c = '-' ∨ c = '+' then ∀ x ∈ rest.head?, x.isDigit = false else c.isDigit = false

instance ini_not_convertible_decidable (v : List Char) :
    Decidable (ini_not_convertible v) := by
  unfold ini_not_convertible
  split
  · infer_instance
  · split <;> infer_instance

/-- The text with every `[` replaced by `]` and every `]` by `[`. -/
def ini_swap_char (c : Char) : Char :=
  if c = '[' then ']' else if c = ']' then '[' else c

/-- The document with `ini_swap_char` applied to every byte of `buf`. -/
def ini_swap_doc (d : ini_t) : ini_t := { d with buf := d.buf.map ini_swap_char }

/-- The initial values of the locals of `_ini_parse_data`. -/
def _ini_parse_init : _ini_locals :=
  { parser_state := _INI_EXPECT_KEY, in_bracket := false, ini := ini_create }

/-- The scenario of the specification without its final newline. -/
def scenario_text_unterminated : List Char :=
  "network=wireless\n[owner]\nname = John Doe\n[database]\nport=143".toList

/-- A document with numeric, textual, empty and boolean values. -/
def typed_doc : ini_t :=
  (ini_load "a=12.34\nb=hello\nc=\nd=true\ne=1234\n".toList).getD ini_create

/-- The locals of the parser with `ini_swap_char` applied to every byte of `buf`. -/
def ini_swap_locals (p : _ini_locals) : _ini_locals := { p with ini := ini_swap_doc p.ini }

/-! ## Evaluation of the state predicates -/

@[simp] theorem any_expected_key : _ini_any_expected _INI_EXPECT_KEY = true := by decide
@[simp] theorem any_expected_sep : _ini_any_expected _INI_EXPECT_SEP = true := by decide
@[simp] theorem any_expected_val : _ini_any_expected _INI_EXPECT_VAL = true := by decide
@[simp] theorem any_expected_pkey : _ini_any_expected _INI_PARSING_KEY = false := by decide
@[simp] theorem any_expected_pval : _ini_any_expected _INI_PARSING_VAL = false := by decide
@[simp] theorem key_expected_key : _ini_key_expected _INI_EXPECT_KEY = true := by decide
@[simp] theorem key_expected_sep : _ini_key_expected _INI_EXPECT_SEP = false := by decide
@[simp] theorem key_expected_val : _ini_key_expected _INI_EXPECT_VAL = false := by decide
@[simp] theorem val_expected_sep : _ini_val_expected _INI_EXPECT_SEP = false := by decide
@[simp] theorem val_expected_val : _ini_val_expected _INI_EXPECT_VAL = true := by decide
@[simp] theorem parsing_key_key : _ini_parsing_key _INI_EXPECT_KEY = false := by decide
@[simp] theorem parsing_key_sep : _ini_parsing_key _INI_EXPECT_SEP = false := by decide
@[simp] theorem parsing_key_val : _ini_parsing_key _INI_EXPECT_VAL = false := by decide
@[simp] theorem parsing_key_pkey : _ini_parsing_key _INI_PARSING_KEY = true := by decide
@[simp] theorem parsing_key_pval : _ini_parsing_key _INI_PARSING_VAL = false := by decide
@[simp] theorem parsing_val_key : _ini_parsing_val _INI_EXPECT_KEY = false := by decide
@[simp] theorem parsing_val_sep : _ini_parsing_val _INI_EXPECT_SEP = false := by decide
@[simp] theorem parsing_val_val : _ini_parsing_val _INI_EXPECT_VAL = false := by decide
@[simp] theorem parsing_val_pkey : _ini_parsing_val _INI_PARSING_KEY = false := by decide
@[simp] theorem parsing_val_pval : _ini_parsing_val _INI_PARSING_VAL = true := by decide

theorem loop_ws (w rest : List Char) (hw : ∀ c ∈ w, ini_space_char c) (p : _ini_locals)
    (hp : _ini_any_expected p.parser_state = true) :
    _ini_parse_loop (w ++ rest) p = _ini_parse_loop rest p := by
  induction w with
  | nil => rfl
  | cons c w ih =>
    have hc := hw c (List.mem_cons_self _ _)
    have ih := ih (fun d hd => hw d (List.mem_cons_of_mem _ hd))
    rcases hc with rfl | rfl <;>
      simp [_ini_parse_loop, _ini_is_comment, _ini_parse_char, hp, _ini_is_whitespace, ih]

theorem loop_key_chars (k rest : List Char) (hk : ∀ c ∈ k, ini_key_char c) (br : Bool) (d : ini_t) :
    _ini_parse_loop (k ++ rest) ⟨_INI_PARSING_KEY, br, d⟩ =
      _ini_parse_loop rest ⟨_INI_PARSING_KEY, br, { d with buf := d.buf ++ k }⟩ := by
  induction k generalizing d with
  | nil => simp
  | cons c k ih =>
    have hc := hk c (List.mem_cons_self _ _)
    have ih := ih (fun d hd => hk d (List.mem_cons_of_mem _ hd))
    obtain ⟨h1, h2, h3, h4, h5, h6, h7, h8, h9⟩ := hc
    simp [_ini_parse_loop, _ini_is_comment, _ini_parse_char, _ini_begin_parsing, _ini_handle_newline,
      _ini_is_whitespace, _ini_is_bracket, _ini_is_delimeter, _ini_is_newline, _ini_put, ih, *]

theorem loop_val_chars (v rest : List Char) (hv : ∀ c ∈ v, ini_value_char c) (br : Bool) (d : ini_t) :
    _ini_parse_loop (v ++ rest) ⟨_INI_PARSING_VAL, br, d⟩ =
      _ini_parse_loop rest ⟨_INI_PARSING_VAL, br, { d with buf := d.buf ++ v }⟩ := by
  induction v generalizing d with
  | nil => simp
  | cons c v ih =>
    have hc := hv c (List.mem_cons_self _ _)
    have ih := ih (fun d hd => hv d (List.mem_cons_of_mem _ hd))
    obtain ⟨h1, h2, h3, h4⟩ := hc
    simp [_ini_parse_loop, _ini_is_comment, _ini_parse_char, _ini_begin_parsing, _ini_handle_newline,
      _ini_is_newline, _ini_put, ih, *]

/-- A character that is neither blank nor a bracket, met while a key is
expected, is handled as if the key had already been started. -/
theorem parse_char_key_start (c : Char) (h1 : c ≠ ' ') (h2 : c ≠ '\t') (h3 : c ≠ '[') (h4 : c ≠ ']')
    (br : Bool) (d : ini_t) :
    _ini_parse_char c ⟨_INI_EXPECT_KEY, br, d⟩ =
      _ini_parse_char c ⟨_INI_PARSING_KEY, br, (_ini_start_key d d.buf.length).1⟩ := by
  simp [_ini_parse_char, _ini_is_whitespace, _ini_is_bracket, _ini_start_key, _ini_locals.buf_pos, *]

theorem loop_key_end (w rest : List Char) (hw : ∀ c ∈ w, ini_space_char c) (br : Bool) (d : ini_t) :
    _ini_parse_loop (w ++ '=' :: rest) ⟨_INI_PARSING_KEY, br, d⟩ =
      _ini_parse_loop rest ⟨_INI_EXPECT_VAL, br, { d with buf := d.buf ++ ['\x00'] }⟩ := by
  cases w with
  | nil =>
    simp [_ini_parse_loop, _ini_is_comment, _ini_parse_char, _ini_begin_parsing,
      _ini_is_whitespace, _ini_is_bracket, _ini_is_delimeter, _ini_put]
  | cons c w =>
    have hc := hw c (List.mem_cons_self _ _)
    have hl := loop_ws w ('=' :: rest) (fun d hd => hw d (List.mem_cons_of_mem _ hd))
      ⟨_INI_EXPECT_SEP, br, { d with buf := d.buf ++ ['\x00'] }⟩ (by simp)
    rcases hc with rfl | rfl <;>
      simp [_ini_parse_loop, _ini_is_comment, _ini_parse_char, _ini_begin_parsing,
        _ini_is_whitespace, _ini_is_bracket, _ini_is_delimeter, _ini_put, hl]

theorem loop_value (w v rest : List Char) (hw : ∀ c ∈ w, ini_space_char c)
    (hv : ∀ c ∈ v, ini_value_char c) (hv0 : ∀ c ∈ v.head?, ¬ ini_space_char c)
    (br : Bool) (d : ini_t) :
    _ini_parse_loop (w ++ (v ++ '\n' :: rest)) ⟨_INI_EXPECT_VAL, br, d⟩ =
      _ini_parse_loop rest ⟨_INI_EXPECT_KEY, br,
        { d with
            properties := Function.update d.properties d.num_properties
              { d.properties d.num_properties with value := some d.buf.length }
            buf := d.buf ++ (v ++ ['\x00'])
            num_properties := d.num_properties + 1 }⟩ := by
  rw [loop_ws w _ hw _ (by simp)]
  cases v with
  | nil =>
    simp [_ini_parse_loop, _ini_is_comment, _ini_parse_char, _ini_begin_parsing,
      _ini_is_whitespace, _ini_is_newline, _ini_put, _ini_start_val, _ini_locals.buf_pos]
  | cons c v =>
    obtain ⟨h1, h2, h3, h4⟩ := hv c (List.mem_cons_self _ _)
    have h5 := hv0 c rfl
    simp only [ini_space_char, not_or] at h5
    have hl := loop_val_chars v ('\n' :: rest) (fun d hd => hv d (List.mem_cons_of_mem _ hd))
    simp [_ini_parse_loop, _ini_is_comment, _ini_parse_char, _ini_begin_parsing, _ini_handle_newline,
      _ini_is_whitespace, _ini_is_newline, _ini_put, _ini_start_val, _ini_locals.buf_pos, hl, *]

theorem loop_key_start (c : Char) (rest : List Char) (h1 : c ≠ ' ') (h2 : c ≠ '\t') (h3 : c ≠ '[')
    (h4 : c ≠ ']') (h5 : c ≠ ';') (h6 : c ≠ '#') (h7 : c ≠ '\x00') (br : Bool) (d : ini_t) :
    _ini_parse_loop (c :: rest) ⟨_INI_EXPECT_KEY, br, d⟩ =
      _ini_parse_loop (c :: rest) ⟨_INI_PARSING_KEY, br, (_ini_start_key d d.buf.length).1⟩ := by
  simp [_ini_parse_loop, parse_char_key_start c h1 h2 h3 h4, _ini_is_comment, *]

theorem loop_property_line (k w1 w2 v rest : List Char) (hk : ∀ c ∈ k, ini_key_char c)
    (hw1 : ∀ c ∈ w1, ini_space_char c) (hw2 : ∀ c ∈ w2, ini_space_char c)
    (hv : ∀ c ∈ v, ini_value_char c) (hv0 : ∀ c ∈ v.head?, ¬ ini_space_char c)
    (br : Bool) (d : ini_t) :
    _ini_parse_loop (k ++ (w1 ++ '=' :: (w2 ++ (v ++ '\n' :: rest)))) ⟨_INI_PARSING_KEY, br, d⟩ =
      _ini_parse_loop rest ⟨_INI_EXPECT_KEY, br,
        { d with
            properties := Function.update d.properties d.num_properties
              { d.properties d.num_properties with value := some (d.buf.length + k.length + 1) }
            buf := d.buf ++ (k ++ '\x00' :: (v ++ ['\x00']))
            num_properties := d.num_properties + 1 }⟩ := by
  rw [loop_key_chars k _ hk, loop_key_end w1 _ hw1, loop_value w2 v rest hw2 hv hv0]
  simp [Nat.add_assoc]

theorem cstr_append (s rest : List Char) (hs : ∀ c ∈ s, c ≠ '\x00') :
    _ini_cstr (s ++ '\x00' :: rest) = some s := by
  induction s with
  | nil => simp [_ini_cstr]
  | cons c s ih =>
    have hc := hs c (List.mem_cons_self _ _)
    simp [_ini_cstr, hc, ih (fun d hd => hs d (List.mem_cons_of_mem _ hd))]

theorem cstr_no_nul (m s : List Char) (h : _ini_cstr m = some s) : ∀ c ∈ s, c ≠ '\x00' := by
  induction m generalizing s with
  | nil => simp [_ini_cstr] at h
  | cons a m ih =>
    simp only [_ini_cstr] at h
    split at h
    · cases h; simp
    · cases hm : _ini_cstr m with
      | none => simp [hm] at h
      | some t =>
        simp [hm] at h
        subst h
        intro c hc
        rcases List.mem_cons.1 hc with rfl | hc
        · assumption
        · exact ih t hm c hc

theorem strcmp_eq_of_cstr (m s k : List Char) (h : _ini_cstr m = some s) (hk : ∀ c ∈ k, c ≠ '\x00') :
    strcmp_eq m k = some (decide (s = k)) := by
  induction m generalizing s k with
  | nil => simp [_ini_cstr] at h
  | cons a m ih =>
    simp only [_ini_cstr] at h
    split at h
    · cases h
      subst a
      cases k with
      | nil => simp [strcmp_eq]
      | cons b k =>
        have hb := hk b (List.mem_cons_self _ _)
        simp [strcmp_eq, Ne.symm hb]
    · cases hm : _ini_cstr m with
      | none => simp [hm] at h
      | some t =>
        simp [hm] at h
        subst h
        cases k with
        | nil => simp [strcmp_eq, *]
        | cons b k =>
          by_cases hab : a = b
          · subst hab
            simp [strcmp_eq, *, ih t k hm (fun d hd => hk d (List.mem_cons_of_mem _ hd))]
          · simp [strcmp_eq, *]

/-! ## Strings and tables are stable under later writes -/

theorem cstr_append_right (m more s : List Char) (h : _ini_cstr m = some s) :
    _ini_cstr (m ++ more) = some s := by
  induction m generalizing s with
  | nil => simp [_ini_cstr] at h
  | cons a m ih =>
    simp only [_ini_cstr, List.cons_append] at h ⊢
    split
    · simpa [*] using h
    · cases hm : _ini_cstr m with
      | none => simp [hm, *] at h
      | some t => simpa [hm, ih t hm, *] using h

theorem string_at_append (d : ini_t) (more : List Char) (off : Nat) (s : List Char)
    (S : Nat → _ini_section_t) (P : Nat → _ini_property_t) (ns np : Nat)
    (h : ini_string_at d off = some s) :
    ini_string_at ⟨S, P, ns, np, d.buf ++ more⟩ off = some s := by
  unfold ini_string_at _ini_str at h ⊢
  by_cases hlt : off ≤ d.buf.length
  · simp only [List.drop_append_of_le_length hlt]
    exact cstr_append_right _ _ _ h
  · have : d.buf.drop off = [] := List.drop_eq_nil_of_le (by omega)
    simp [this, _ini_cstr] at h

theorem section_name_append (d : ini_t) (more : List Char) (i : Nat)
    (S : Nat → _ini_section_t) (P : Nat → _ini_property_t) (ns np : Nat)
    (hS : S i = d.sections i) (x : List Char) (h : ini_section_name d i = some x) :
    ini_section_name ⟨S, P, ns, np, d.buf ++ more⟩ i = some x := by
  unfold ini_section_name at h ⊢
  simp only [hS]
  cases hn : (d.sections i).name with
  | none => simp [hn] at h
  | some off =>
    simp only [hn, Option.some_bind] at h ⊢
    exact string_at_append d more off x S P ns np h

theorem property_entry_append (d : ini_t) (more : List Char) (i : Nat)
    (S : Nat → _ini_section_t) (P : Nat → _ini_property_t) (ns np : Nat)
    (hP : P i = d.properties i) (x : Nat × List Char × List Char)
    (h : ini_property_entry d i = some x) :
    ini_property_entry ⟨S, P, ns, np, d.buf ++ more⟩ i = some x := by
  unfold ini_property_entry at h ⊢
  simp only [hP]
  cases hs : (d.properties i).section_ <;> cases hk : (d.properties i).key <;>
    cases hv : (d.properties i).value <;> simp only [hs, hk, hv] at h ⊢ <;> try cases h
  rename_i s k v
  cases hks : ini_string_at d k <;> cases hvs : ini_string_at d v <;>
    simp only [hks, hvs] at h <;> try cases h
  rename_i ks vs
  simp only [string_at_append d more k ks S P ns np hks, string_at_append d more v vs S P ns np hvs]

theorem section_table_extend (d : ini_t) (names : List (List Char))
    (h : ini_section_table d = names.map some)
    (S : Nat → _ini_section_t) (P : Nat → _ini_property_t) (np : Nat) (more : List Char)
    (hS : ∀ i < d.num_sections, S i = d.sections i) :
    ini_section_table ⟨S, P, d.num_sections, np, d.buf ++ more⟩ = names.map some := by
  rw [← h]
  unfold ini_section_table
  apply List.map_congr_left
  intro i hi
  have hi' : i < d.num_sections := List.mem_range.1 hi
  have hm : ini_section_name d i ∈ names.map some := by
    rw [← h]; exact List.mem_map_of_mem _ hi
  obtain ⟨x, _, hx⟩ := List.mem_map.1 hm
  rw [← hx]
  exact section_name_append d more i S P _ np (hS i hi') x hx.symm

theorem property_table_extend (d : ini_t) (props : List (Nat × List Char × List Char))
    (h : ini_property_table d = props.map some)
    (S : Nat → _ini_section_t) (P : Nat → _ini_property_t) (ns : Nat) (more : List Char)
    (hP : ∀ i < d.num_properties, P i = d.properties i) :
    ini_property_table ⟨S, P, ns, d.num_properties, d.buf ++ more⟩ = props.map some := by
  rw [← h]
  unfold ini_property_table
  apply List.map_congr_left
  intro i hi
  have hi' : i < d.num_properties := List.mem_range.1 hi
  have hm : ini_property_entry d i ∈ props.map some := by
    rw [← h]; exact List.mem_map_of_mem _ hi
  obtain ⟨x, _, hx⟩ := List.mem_map.1 hm
  rw [← hx]
  exact property_entry_append d more i S P ns _ (hP i hi') x hx.symm

theorem section_table_add (d : ini_t) (names : List (List Char))
    (h : ini_section_table d = names.map some)
    (S : Nat → _ini_section_t) (P : Nat → _ini_property_t) (np : Nat) (more : List Char)
    (hS : ∀ i < d.num_sections, S i = d.sections i) (off : Nat) (name : List Char)
    (hslot : S d.num_sections = ⟨some off⟩)
    (hname : _ini_cstr ((d.buf ++ more).drop off) = some name) :
    ini_section_table ⟨S, P, d.num_sections + 1, np, d.buf ++ more⟩ =
      (names ++ [name]).map some := by
  have h1 := section_table_extend d names h S P np more hS
  have e : ini_section_name ⟨S, P, d.num_sections + 1, np, d.buf ++ more⟩ =
      ini_section_name ⟨S, P, d.num_sections, np, d.buf ++ more⟩ := rfl
  unfold ini_section_table at h1 ⊢
  simp only [List.range_succ, List.map_append, e, h1, List.map_cons, List.map_nil]
  simp [ini_section_name, hslot, ini_string_at, _ini_str, hname]

theorem property_table_add (d : ini_t) (props : List (Nat × List Char × List Char))
    (h : ini_property_table d = props.map some)
    (S : Nat → _ini_section_t) (P : Nat → _ini_property_t) (ns : Nat) (more : List Char)
    (hP : ∀ i < d.num_properties, P i = d.properties i) (s koff voff : Nat) (ks vs : List Char)
    (hslot : P d.num_properties = ⟨some s, some koff, some voff⟩)
    (hk : _ini_cstr ((d.buf ++ more).drop koff) = some ks)
    (hv : _ini_cstr ((d.buf ++ more).drop voff) = some vs) :
    ini_property_table ⟨S, P, ns, d.num_properties + 1, d.buf ++ more⟩ =
      (props ++ [(s, ks, vs)]).map some := by
  have h1 := property_table_extend d props h S P ns more hP
  have e : ini_property_entry ⟨S, P, ns, d.num_properties + 1, d.buf ++ more⟩ =
      ini_property_entry ⟨S, P, ns, d.num_properties, d.buf ++ more⟩ := rfl
  unfold ini_property_table at h1 ⊢
  simp only [List.range_succ, List.map_append, e, h1, List.map_cons, List.map_nil]
  simp [ini_property_entry, hslot, ini_string_at, _ini_str, hk, hv]

theorem section_table_length (d : ini_t) (names : List (List Char))
    (h : ini_section_table d = names.map some) : d.num_sections = names.length := by
  have := congrArg List.length h
  simpa [ini_section_table] using this

theorem update_other {α : Type} (f : Nat → α) (n i : Nat) (v : α) (h : i < n) :
    Function.update f n v i = f i :=
  Function.update_noteq (by omega) v f

/-- What one property line appends to the tables. -/
theorem tables_after_property_line (d : ini_t) (names : List (List Char))
    (props : List (Nat × List Char × List Char)) (h : ini_tables_are d names props)
    (k v : List Char) (hk : ∀ c ∈ k, c ≠ '\x00') (hv : ∀ c ∈ v, c ≠ '\x00') :
    ini_tables_are
      { d with
          properties := Function.update d.properties d.num_properties
            ⟨some d.num_sections, some d.buf.length, some (d.buf.length + k.length + 1)⟩
          buf := d.buf ++ (k ++ '\x00' :: (v ++ ['\x00']))
          num_properties := d.num_properties + 1 }
      names (props ++ [(d.num_sections, k, v)]) := by
  constructor
  · have := section_table_extend d names h.1 d.sections
      (Function.update d.properties d.num_properties
        ⟨some d.num_sections, some d.buf.length, some (d.buf.length + k.length + 1)⟩)
      (d.num_properties + 1) (k ++ '\x00' :: (v ++ ['\x00'])) (fun _ _ => rfl)
    exact this
  · refine property_table_add d props h.2 d.sections _ d.num_sections _
      (fun i hi => update_other _ _ _ _ hi) d.num_sections d.buf.length
      (d.buf.length + k.length + 1) k v (by simp) ?_ ?_
    · simp [cstr_append k _ hk]
    · have e : d.buf ++ (k ++ '\x00' :: (v ++ ['\x00'])) =
          (d.buf ++ (k ++ ['\x00'])) ++ (v ++ ['\x00']) := by simp
      rw [e, List.drop_append_of_le_length (by simp; omega)]
      rw [List.drop_eq_nil_of_le (by simp; omega)]
      simpa using cstr_append v [] hv

theorem loop_property_line_expect (k w1 w2 v rest : List Char) (hk : ∀ c ∈ k, ini_key_char c)
    (hk0 : k = [] → w1 = [])
    (hw1 : ∀ c ∈ w1, ini_space_char c) (hw2 : ∀ c ∈ w2, ini_space_char c)
    (hv : ∀ c ∈ v, ini_value_char c) (hv0 : ∀ c ∈ v.head?, ¬ ini_space_char c)
    (br : Bool) (d : ini_t) :
    _ini_parse_loop (k ++ (w1 ++ '=' :: (w2 ++ (v ++ '\n' :: rest)))) ⟨_INI_EXPECT_KEY, br, d⟩ =
      _ini_parse_loop rest ⟨_INI_EXPECT_KEY, br,
        { d with
            properties := Function.update d.properties d.num_properties
              ⟨some d.num_sections, some d.buf.length, some (d.buf.length + k.length + 1)⟩
            buf := d.buf ++ (k ++ '\x00' :: (v ++ ['\x00']))
            num_properties := d.num_properties + 1 }⟩ := by
  have hrun := loop_property_line k w1 w2 v rest hk hw1 hw2 hv hv0 br
    (_ini_start_key d d.buf.length).1
  cases k with
  | nil =>
    rw [hk0 rfl] at hrun ⊢
    simp only [List.nil_append] at hrun ⊢
    rw [loop_key_start '=' _ (by decide) (by decide) (by decide) (by decide) (by decide)
      (by decide) (by decide), hrun]
    simp [_ini_start_key]
  | cons c k =>
    obtain ⟨h1, h2, h3, h4, h5, h6, h7, h8, h9⟩ := hk c (List.mem_cons_self _ _)
    rw [List.cons_append] at hrun ⊢
    rw [loop_key_start c _ h1 h2 h4 h5 h6 h7 h9, hrun]
    simp [_ini_start_key]

theorem tables_create : ini_tables_are ini_create [] [] := by
  simp [ini_tables_are, ini_section_table, ini_property_table, ini_create]

theorem key_char_ne_nul (k : List Char) (hk : ∀ c ∈ k, ini_key_char c) : ∀ c ∈ k, c ≠ '\x00' :=
  fun c hc => (hk c hc).2.2.2.2.2.2.2.2

theorem value_char_ne_nul (v : List Char) (hv : ∀ c ∈ v, ini_value_char c) : ∀ c ∈ v, c ≠ '\x00' :=
  fun c hc => (hv c hc).2.2.2

/-- C1: a property line `k w1 = w2 v` followed by a newline parses to a
document with exactly one property, owned by the global section, with key
`k`, and `ini_value` returns a pointer to exactly `v`. -/
theorem ini_load_property_round_trip (k v w1 w2 : List Char)
    (hk0 : k ≠ []) (hk : ∀ c ∈ k, ini_key_char c)
    (hv : ∀ c ∈ v, ini_value_char c) (hv0 : ∀ c ∈ v.head?, ¬ ini_space_char c)
    (hw1 : ∀ c ∈ w1, ini_space_char c) (hw2 : ∀ c ∈ w2, ini_space_char c) :
    ∃ doc, ini_load (k ++ w1 ++ '=' :: w2 ++ v ++ ['\n']) = some doc ∧
      doc.num_properties = 1 ∧ ini_property_table doc = [some (0, k, v)] ∧
      ini_value_string doc INI_GLOBAL_SECTION k = some (some v) := by
  have hknul := key_char_ne_nul k hk
  have hvnul := value_char_ne_nul v hv
  have e : k ++ w1 ++ '=' :: w2 ++ v ++ ['\n'] =
      k ++ (w1 ++ '=' :: (w2 ++ (v ++ '\n' :: []))) := by simp
  have hrun := loop_property_line_expect k w1 w2 v [] hk (fun h => absurd h hk0) hw1 hw2 hv hv0
    false ini_create
  have htab := tables_after_property_line ini_create [] [] tables_create k v hknul hvnul
  refine ⟨_, ?_, ?_, htab.2, ?_⟩
  · unfold ini_load _ini_parse_data
    rw [e, hrun]
    simp only [_ini_parse_loop, Option.map_some', _ini_parse_finish, parsing_val_key]
    rfl
  · rfl
  · have hs := strcmp_eq_of_cstr (k ++ '\x00' :: (v ++ ['\x00'])) k k (cstr_append k _ hknul) hknul
    have hs2 := cstr_append v [] hvnul
    simp [ini_value_string, ini_value, _ini_value_loop, ini_create, INI_GLOBAL_SECTION, _ini_str,
      hs, ini_string_at, hs2]

/-- The line `name = John Doe` of the scenario, with a tab added after `=`. -/
theorem ini_load_property_round_trip_witness :
    ∃ doc, ini_load ("name".toList ++ " ".toList ++ '=' :: " \t".toList ++ "John Doe".toList ++ ['\n'])
        = some doc ∧
      doc.num_properties = 1 ∧
      ini_property_table doc = [some (0, "name".toList, "John Doe".toList)] ∧
      ini_value_string doc INI_GLOBAL_SECTION "name".toList = some (some "John Doe".toList) :=
  ini_load_property_round_trip "name".toList "John Doe".toList " ".toList " \t".toList
    (by decide) (by decide) (by decide) (by decide) (by decide) (by decide)

/-! ## Canonically written documents -/

theorem run_properties (ps : List (List Char × List Char)) (rest : List Char)
    (hps : ∀ kv ∈ ps, ini_valid_pair kv) (d : ini_t) (names : List (List Char))
    (props : List (Nat × List Char × List Char)) (h : ini_tables_are d names props) :
    ∃ d', _ini_parse_loop (ini_render_properties ps ++ rest) ⟨_INI_EXPECT_KEY, false, d⟩ =
        _ini_parse_loop rest ⟨_INI_EXPECT_KEY, false, d'⟩ ∧
      d'.num_sections = d.num_sections ∧
      ini_tables_are d' names
        (props ++ ps.map (fun kv : List Char × List Char => (d.num_sections, kv.1, kv.2))) := by
  induction ps generalizing d props with
  | nil => exact ⟨d, by simp [ini_render_properties], rfl, by simpa using h⟩
  | cons kv ps ih =>
    obtain ⟨hk, hv, hv0⟩ := hps kv (List.mem_cons_self _ _)
    have e : ini_render_properties (kv :: ps) ++ rest =
        kv.1 ++ ([] ++ '=' :: ([] ++ (kv.2 ++ '\n' :: (ini_render_properties ps ++ rest)))) := by
      simp [ini_render_properties]
    have hstep := loop_property_line_expect kv.1 [] [] kv.2 (ini_render_properties ps ++ rest)
      hk (fun _ => rfl) (by simp) (by simp) hv hv0 false d
    have htab := tables_after_property_line d names props h kv.1 kv.2
      (key_char_ne_nul _ hk) (value_char_ne_nul _ hv)
    obtain ⟨d', h1, h2, h3⟩ := ih (fun x hx => hps x (List.mem_cons_of_mem _ hx)) _ _ htab
    refine ⟨d', ?_, h2, ?_⟩
    · rw [e, hstep, h1]
    · simpa using h3

theorem loop_header (name rest : List Char) (hname : ∀ c ∈ name, ini_key_char c) (d : ini_t) :
    _ini_parse_loop ('[' :: (name ++ ']' :: rest)) ⟨_INI_EXPECT_KEY, false, d⟩ =
      _ini_parse_loop rest ⟨_INI_EXPECT_KEY, false,
        { d with
            sections := Function.update d.sections d.num_sections ⟨some d.buf.length⟩
            buf := d.buf ++ (name ++ ['\x00'])
            num_sections := d.num_sections + 1 }⟩ := by
  have hl := loop_key_chars name (']' :: rest) hname true
  simp [_ini_parse_loop, _ini_is_comment, _ini_parse_char, _ini_begin_parsing,
    _ini_is_whitespace, _ini_is_bracket, _ini_put, _ini_start_section, _ini_locals.buf_pos, hl]

theorem tables_after_header (d : ini_t) (names : List (List Char))
    (props : List (Nat × List Char × List Char)) (h : ini_tables_are d names props)
    (name : List Char) (hname : ∀ c ∈ name, c ≠ '\x00') :
    ini_tables_are
      { d with
          sections := Function.update d.sections d.num_sections ⟨some d.buf.length⟩
          buf := d.buf ++ (name ++ ['\x00'])
          num_sections := d.num_sections + 1 }
      (names ++ [name]) props := by
  constructor
  · refine section_table_add d names h.1 _ d.properties d.num_properties _
      (fun i hi => update_other _ _ _ _ hi) d.buf.length name (by simp) ?_
    simpa using cstr_append name [] hname
  · exact property_table_extend d props h.2
      (Function.update d.sections d.num_sections ⟨some d.buf.length⟩) d.properties
      (d.num_sections + 1) (name ++ ['\x00']) (fun _ _ => rfl)

/-- A newline met while a key is expected changes nothing when a property
line follows. -/
theorem loop_newline_before_line (k rest : List Char) (hk : ∀ c ∈ k, ini_key_char c)
    (br : Bool) (d : ini_t) :
    _ini_parse_loop ('\n' :: (k ++ '=' :: rest)) ⟨_INI_EXPECT_KEY, br, d⟩ =
      _ini_parse_loop (k ++ '=' :: rest) ⟨_INI_EXPECT_KEY, br, d⟩ := by
  have hl : _ini_parse_loop ('\n' :: (k ++ '=' :: rest)) ⟨_INI_EXPECT_KEY, br, d⟩ =
      _ini_parse_loop (k ++ '=' :: rest)
        ⟨_INI_PARSING_KEY, br, (_ini_start_key d d.buf.length).1⟩ := by
    simp [_ini_parse_loop, _ini_is_comment, _ini_parse_char, _ini_begin_parsing,
      _ini_handle_newline, _ini_is_whitespace, _ini_is_bracket, _ini_is_delimeter,
      _ini_is_newline, _ini_start_key, _ini_locals.buf_pos]
  rw [hl]
  cases k with
  | nil =>
    exact (loop_key_start '=' _ (by decide) (by decide) (by decide) (by decide) (by decide)
      (by decide) (by decide) br d).symm
  | cons c k =>
    obtain ⟨h1, h2, h3, h4, h5, h6, h7, h8, h9⟩ := hk c (List.mem_cons_self _ _)
    exact (loop_key_start c _ h1 h2 h4 h5 h6 h7 h9 br d).symm

theorem run_sections (secs : List (List Char × List (List Char × List Char)))
    (hsecs : ∀ s ∈ secs, ini_valid_section s) (d : ini_t) (names : List (List Char))
    (props : List (Nat × List Char × List Char)) (h : ini_tables_are d names props) :
    ∃ d', _ini_parse_loop (ini_render_sections secs) ⟨_INI_EXPECT_KEY, false, d⟩ =
        some ⟨_INI_EXPECT_KEY, false, d'⟩ ∧
      ini_tables_are d' (names ++ secs.map (fun s => s.1))
        (props ++ ini_expected_properties (d.num_sections + 1) secs) := by
  induction secs generalizing d names props with
  | nil => exact ⟨d, by simp [ini_render_sections, _ini_parse_loop],
      by simpa [ini_expected_properties] using h⟩
  | cons s ss ih =>
    obtain ⟨hname, hne, hps⟩ := hsecs s (List.mem_cons_self _ _)
    obtain ⟨kv, tail, hs2⟩ := List.exists_cons_of_ne_nil hne
    have hkv := hps kv (by simp [hs2])
    have e1 : ini_render_sections (s :: ss) =
        '[' :: (s.1 ++ ']' :: ('\n' :: (ini_render_properties s.2 ++ ini_render_sections ss))) := by
      simp [ini_render_sections]
    have e2 : '\n' :: (ini_render_properties s.2 ++ ini_render_sections ss) =
        '\n' :: (kv.1 ++ '=' :: (kv.2 ++ '\n' ::
          (ini_render_properties tail ++ ini_render_sections ss))) := by
      simp [hs2, ini_render_properties]
    have e3 : kv.1 ++ '=' :: (kv.2 ++ '\n' ::
          (ini_render_properties tail ++ ini_render_sections ss)) =
        ini_render_properties s.2 ++ ini_render_sections ss := by
      simp [hs2, ini_render_properties]
    have htab := tables_after_header d names props h s.1 (key_char_ne_nul _ hname)
    obtain ⟨d2, h1, h2, h3⟩ := run_properties s.2 (ini_render_sections ss) hps _ _ _ htab
    obtain ⟨d3, h4, h5⟩ := ih (fun x hx => hsecs x (List.mem_cons_of_mem _ hx)) d2 _ _ h3
    refine ⟨d3, ?_, ?_⟩
    · rw [e1, loop_header s.1 _ hname, e2, loop_newline_before_line kv.1 _ hkv.1, e3, h1, h4]
    · rw [h2] at h5
      simpa [ini_expected_properties] using h5

/-- C3: parsing a canonically written document recovers its tables.  The
section table holds the names in order, and the property table holds, in order,
the global pairs with section 0 and the pairs of the `i`-th section with
section `i`. -/
theorem ini_load_canonical_document (globals : List (List Char × List Char))
    (secs : List (List Char × List (List Char × List Char)))
    (hG : ∀ kv ∈ globals, ini_valid_pair kv) (hS : ∀ s ∈ secs, ini_valid_section s) :
    ∃ doc, ini_load (ini_render globals secs) = some doc ∧
      ini_section_table doc = (secs.map (fun s => s.1)).map some ∧
      ini_property_table doc =
        (globals.map (fun kv : List Char × List Char => (0, kv.1, kv.2)) ++
          ini_expected_properties 1 secs).map some := by
  obtain ⟨d1, h1, h2, h3⟩ := run_properties globals (ini_render_sections secs) hG ini_create [] []
    tables_create
  obtain ⟨d2, h4, h5⟩ := run_sections secs hS d1 _ _ h3
  have hns : d1.num_sections = 0 := h2
  rw [hns] at h5
  refine ⟨d2, ?_, ?_, ?_⟩
  · unfold ini_load _ini_parse_data ini_render
    rw [h1, h4]
    simp [_ini_parse_finish]
  · simpa using h5.1
  · have := h5.2
    simpa [ini_create] using this

/-- The scenario of the specification, written canonically and as the
specification has it (with blanks around the `=` of `name`). -/
theorem ini_load_canonical_document_witness :
    (∀ kv ∈ scenario_globals, ini_valid_pair kv) ∧
      (∀ s ∈ scenario_sections, ini_valid_section s) ∧
      (∃ doc, ini_load (ini_render scenario_globals scenario_sections) = some doc ∧
        ini_section_table doc = [some "owner".toList, some "database".toList] ∧
        ini_property_table doc =
          [some (0, "network".toList, "wireless".toList),
           some (1, "name".toList, "John Doe".toList),
           some (2, "port".toList, "143".toList)]) ∧
      (ini_load scenario_text).map ini_section_table =
        some [some "owner".toList, some "database".toList] ∧
      (ini_load scenario_text).map ini_property_table =
        some [some (0, "network".toList, "wireless".toList),
              some (1, "name".toList, "John Doe".toList),
              some (2, "port".toList, "143".toList)] :=
  ⟨by decide, by decide,
    ini_load_canonical_document scenario_globals scenario_sections (by decide) (by decide),
    by decide!, by decide!⟩

/-! ## The lookup loops -/

theorem sections_defined_at (ini : ini_t) (h : ini_sections_defined ini) (i : Nat)
    (hi : i < ini.num_sections) : ∃ x, ini_section_name ini i = some x := by
  have hm : ini_section_name ini i ∈ ini_section_table ini :=
    List.mem_map_of_mem _ (List.mem_range.2 hi)
  cases hx : ini_section_name ini i with
  | none => exact absurd hx (h _ hm)
  | some x => exact ⟨x, rfl⟩

theorem properties_defined_at (ini : ini_t) (h : ini_properties_defined ini) (i : Nat)
    (hi : i < ini.num_properties) : ∃ x, ini_property_entry ini i = some x := by
  have hm : ini_property_entry ini i ∈ ini_property_table ini :=
    List.mem_map_of_mem _ (List.mem_range.2 hi)
  cases hx : ini_property_entry ini i with
  | none => exact absurd hx (h _ hm)
  | some x => exact ⟨x, rfl⟩

theorem find_section_step (ini : ini_t) (name x : List Char) (k i : Nat)
    (hname : ∀ c ∈ name, c ≠ '\x00') (hx : ini_section_name ini i = some x) :
    _ini_find_section_loop ini name (k + 1) i =
      if x = name then some ((i : Int) + 1) else _ini_find_section_loop ini name k (i + 1) := by
  unfold ini_section_name at hx
  cases hn : (ini.sections i).name with
  | none => simp [hn] at hx
  | some off =>
    simp only [hn, Option.some_bind, ini_string_at] at hx
    simp only [_ini_find_section_loop, hn, strcmp_eq_of_cstr _ x name hx hname]
    by_cases hxn : x = name <;> simp [hxn]

theorem property_entry_fields (ini : ini_t) (i s : Nat) (ks vs : List Char)
    (h : ini_property_entry ini i = some (s, ks, vs)) :
    ∃ koff voff, ini.properties i = ⟨some s, some koff, some voff⟩ ∧
      ini_string_at ini koff = some ks ∧ ini_string_at ini voff = some vs := by
  unfold ini_property_entry at h
  rcases hp : ini.properties i with ⟨_ | s', _ | koff, _ | voff⟩ <;> simp only [hp] at h <;>
    try cases h
  cases hks : ini_string_at ini koff <;> cases hvs : ini_string_at ini voff <;>
    simp only [hks, hvs] at h <;> try cases h
  exact ⟨koff, voff, rfl, hks, hvs⟩

theorem value_step (ini : ini_t) (sec : Int) (key : List Char) (k i s : Nat) (ks vs : List Char)
    (hkey : ∀ c ∈ key, c ≠ '\x00') (h : ini_property_entry ini i = some (s, ks, vs)) :
    ∃ voff, ini_string_at ini voff = some vs ∧
      _ini_value_loop ini sec key (k + 1) i =
        if (s : Int) = sec ∧ ks = key then some (some voff)
        else _ini_value_loop ini sec key k (i + 1) := by
  obtain ⟨koff, voff, hp, hks, hvs⟩ := property_entry_fields ini i s ks vs h
  refine ⟨voff, hvs, ?_⟩
  unfold ini_string_at at hks
  simp only [_ini_value_loop, hp, strcmp_eq_of_cstr _ ks key hks hkey]
  by_cases h1 : (s : Int) = sec <;> by_cases h2 : ks = key <;> simp [h1, h2]

theorem property_exists_step (ini : ini_t) (sec : Int) (key : List Char) (k i s : Nat)
    (ks vs : List Char) (hkey : ∀ c ∈ key, c ≠ '\x00')
    (h : ini_property_entry ini i = some (s, ks, vs)) :
    _ini_property_exists_loop ini sec key (k + 1) i =
      if (s : Int) = sec ∧ ks = key then some true
      else _ini_property_exists_loop ini sec key k (i + 1) := by
  obtain ⟨koff, voff, hp, hks, hvs⟩ := property_entry_fields ini i s ks vs h
  unfold ini_string_at at hks
  simp only [_ini_property_exists_loop, hp, strcmp_eq_of_cstr _ ks key hks hkey]
  by_cases h1 : (s : Int) = sec <;> by_cases h2 : ks = key <;> simp [h1, h2]

theorem find_section_loop_spec (ini : ini_t) (name : List Char)
    (hname : ∀ c ∈ name, c ≠ '\x00') (k i : Nat)
    (hdef : ∀ j, i ≤ j → j < i + k → ∃ x, ini_section_name ini j = some x) :
    (∀ m, i ≤ m → m < i + k → ini_section_name ini m = some name →
      (∀ j, i ≤ j → j < m → ini_section_name ini j ≠ some name) →
      _ini_find_section_loop ini name k i = some ((m : Int) + 1)) ∧
    ((∀ j, i ≤ j → j < i + k → ini_section_name ini j ≠ some name) →
      _ini_find_section_loop ini name k i = some INI_NOT_FOUND) := by
  induction k generalizing i with
  | zero =>
    refine ⟨fun m h1 h2 => by omega, fun _ => rfl⟩
  | succ k ih =>
    obtain ⟨x, hx⟩ := hdef i (le_refl _) (by omega)
    have ih := ih (i + 1) (fun j h1 h2 => hdef j (by omega) (by omega))
    rw [find_section_step ini name x k i hname hx]
    constructor
    · intro m h1 h2 hm hfirst
      by_cases hxn : x = name
      · have : m = i := by
          by_contra hne
          exact hfirst i (le_refl _) (by omega) (by rw [hx, hxn])
        simp [hxn, this]
      · have hmi : m ≠ i := by
          rintro rfl
          rw [hx] at hm
          exact hxn (Option.some.inj hm)
        simp only [hxn, if_false]
        exact ih.1 m (by omega) (by omega) hm (fun j h3 h4 => hfirst j (by omega) h4)
    · intro hnone
      have hxn : x ≠ name := fun e => hnone i (le_refl _) (by omega) (by rw [hx, e])
      simp only [hxn, if_false]
      exact ih.2 (fun j h3 h4 => hnone j (by omega) (by omega))

theorem value_loop_spec (ini : ini_t) (sec : Int) (key : List Char)
    (hkey : ∀ c ∈ key, c ≠ '\x00') (k i : Nat)
    (hdef : ∀ j, i ≤ j → j < i + k → ∃ x, ini_property_entry ini j = some x) :
    (∀ m s v, i ≤ m → m < i + k → ini_property_entry ini m = some (s, key, v) → (s : Int) = sec →
      (∀ j, i ≤ j → j < m → ∀ e, ini_property_entry ini j = some e →
        ¬ ((e.1 : Int) = sec ∧ e.2.1 = key)) →
      ∃ off, _ini_value_loop ini sec key k i = some (some off) ∧
        ini_string_at ini off = some v) ∧
    ((∀ j, i ≤ j → j < i + k → ∀ e, ini_property_entry ini j = some e →
        ¬ ((e.1 : Int) = sec ∧ e.2.1 = key)) →
      _ini_value_loop ini sec key k i = some none) := by
  induction k generalizing i with
  | zero =>
    refine ⟨fun m _ _ h1 h2 => by omega, fun _ => rfl⟩
  | succ k ih =>
    obtain ⟨⟨s0, ks0, vs0⟩, hx⟩ := hdef i (le_refl _) (by omega)
    have ih := ih (i + 1) (fun j h1 h2 => hdef j (by omega) (by omega))
    obtain ⟨voff, hvoff, hstep⟩ := value_step ini sec key k i s0 ks0 vs0 hkey hx
    rw [hstep]
    constructor
    · intro m s v h1 h2 hm hs hfirst
      by_cases hmatch : (s0 : Int) = sec ∧ ks0 = key
      · have hmi : m = i := by
          by_contra hne
          exact hfirst i (le_refl _) (by omega) _ hx hmatch
        subst hmi
        rw [hx] at hm
        cases hm
        exact ⟨voff, by simp [hmatch], hvoff⟩
      · have hmi : m ≠ i := by
          rintro rfl
          rw [hx] at hm
          cases hm
          exact hmatch ⟨hs, rfl⟩
        simp only [hmatch, if_false]
        exact ih.1 m s v (by omega) (by omega) hm hs (fun j h3 h4 => hfirst j (by omega) h4)
    · intro hnone
      have hmatch : ¬ ((s0 : Int) = sec ∧ ks0 = key) := hnone i (le_refl _) (by omega) _ hx
      simp only [hmatch, if_false]
      exact ih.2 (fun j h3 h4 => hnone j (by omega) (by omega))

theorem property_exists_loop_eq (ini : ini_t) (sec : Int) (key : List Char)
    (hkey : ∀ c ∈ key, c ≠ '\x00') (k i : Nat)
    (hdef : ∀ j, i ≤ j → j < i + k → ∃ x, ini_property_entry ini j = some x) :
    ∃ r, _ini_value_loop ini sec key k i = some r ∧
      _ini_property_exists_loop ini sec key k i = some r.isSome := by
  induction k generalizing i with
  | zero => exact ⟨none, rfl, rfl⟩
  | succ k ih =>
    obtain ⟨⟨s0, ks0, vs0⟩, hx⟩ := hdef i (le_refl _) (by omega)
    obtain ⟨r, h1, h2⟩ := ih (i + 1) (fun j h1 h2 => hdef j (by omega) (by omega))
    obtain ⟨voff, _, hstep⟩ := value_step ini sec key k i s0 ks0 vs0 hkey hx
    rw [hstep, property_exists_step ini sec key k i s0 ks0 vs0 hkey hx]
    by_cases hmatch : (s0 : Int) = sec ∧ ks0 = key
    · exact ⟨some voff, by simp [hmatch], by simp [hmatch]⟩
    · exact ⟨r, by simp [hmatch, h1], by simp [hmatch, h2]⟩

/-! ## Claims about the lookup functions -/

/-- C4: `ini_value` is first-match lookup.  In a document whose property table
is initialised, if slot `i` is the first slot whose section is `s` and whose key
is `k`, `ini_value` returns a pointer to the value string of slot `i`; if no
slot matches, it returns `NULL`. -/
theorem ini_value_first_match (ini : ini_t) (s : Int) (k : List Char)
    (hdef : ini_properties_defined ini) (hk : ∀ c ∈ k, c ≠ '\x00') :
    (∀ i sec v, i < ini.num_properties → ini_property_entry ini i = some (sec, k, v) →
      (sec : Int) = s →
      (∀ j < i, ∀ e, ini_property_entry ini j = some e → ¬ ((e.1 : Int) = s ∧ e.2.1 = k)) →
      ini_value_string ini s k = some (some v)) ∧
    ((∀ i < ini.num_properties, ∀ e, ini_property_entry ini i = some e →
        ¬ ((e.1 : Int) = s ∧ e.2.1 = k)) →
      ini_value ini s k = some none ∧ ini_value_string ini s k = some none) := by
  have hspec := value_loop_spec ini s k hk ini.num_properties 0
    (fun j _ h => properties_defined_at ini hdef j (by omega))
  constructor
  · intro i sec v hi he hs hfirst
    obtain ⟨off, h1, h2⟩ := hspec.1 i sec v (Nat.zero_le _) (by omega) he hs
      (fun j _ h => hfirst j h)
    unfold ini_value_string ini_value
    simp [h1, h2]
  · intro hnone
    have h := hspec.2 (fun j _ h => hnone j (by omega))
    unfold ini_value_string ini_value
    simp [h]

/-- Of the two global properties with key `a`, the first one is returned. -/
theorem ini_value_first_match_witness :
    ini_properties_defined duplicates_doc ∧ (∀ c ∈ "a".toList, c ≠ '\x00') ∧
      ini_value_string duplicates_doc 0 "a".toList = some (some "1".toList) :=
  ⟨by decide!, by decide,
    (ini_value_first_match duplicates_doc 0 "a".toList (by decide!) (by decide)).1
      0 0 "1".toList (by decide!) (by decide!) rfl (fun j hj => absurd hj (Nat.not_lt_zero j))⟩

/-- C5: `ini_find_section` is first-match lookup and never returns 0.  In a
document whose section table is initialised, the result is the index of the
first slot carrying the name, plus one, or `INI_NOT_FOUND` when no slot carries
it; it is never `INI_GLOBAL_SECTION`, it lies in `1 .. num_sections` unless it
is `INI_NOT_FOUND`, and `ini_section_exists` is true exactly when the result
is not `INI_NOT_FOUND`. -/
theorem ini_find_section_first_match (ini : ini_t) (name : List Char)
    (hdef : ini_sections_defined ini) (hname : ∀ c ∈ name, c ≠ '\x00') :
    (∀ i, i < ini.num_sections → ini_section_name ini i = some name →
      (∀ j < i, ini_section_name ini j ≠ some name) →
      ini_find_section ini name = some ((i : Int) + 1)) ∧
    ((∀ i < ini.num_sections, ini_section_name ini i ≠ some name) →
      ini_find_section ini name = some INI_NOT_FOUND) ∧
    (∃ r, ini_find_section ini name = some r ∧ r ≠ INI_GLOBAL_SECTION ∧
      (r = INI_NOT_FOUND ∨ (1 ≤ r ∧ r ≤ (ini.num_sections : Int))) ∧
      ini_section_exists ini name = some (decide (r ≠ INI_NOT_FOUND))) := by
  have hspec := find_section_loop_spec ini name hname ini.num_sections 0
    (fun j _ h => sections_defined_at ini hdef j (by omega))
  have h1 : ∀ i, i < ini.num_sections → ini_section_name ini i = some name →
      (∀ j < i, ini_section_name ini j ≠ some name) →
      ini_find_section ini name = some ((i : Int) + 1) :=
    fun i hi he hfirst => hspec.1 i (Nat.zero_le _) (by omega) he (fun j _ h => hfirst j h)
  have h2 : (∀ i < ini.num_sections, ini_section_name ini i ≠ some name) →
      ini_find_section ini name = some INI_NOT_FOUND :=
    fun hnone => hspec.2 (fun j _ h => hnone j (by omega))
  refine ⟨h1, h2, ?_⟩
  by_cases hex : ∃ i, i < ini.num_sections ∧ ini_section_name ini i = some name
  · classical
    let i := Nat.find hex
    have hi : i < ini.num_sections ∧ ini_section_name ini i = some name := Nat.find_spec hex
    have hmin : ∀ j < i, ini_section_name ini j ≠ some name := fun j hj he =>
      Nat.find_min hex hj ⟨by omega, he⟩
    have hr := h1 i hi.1 hi.2 hmin
    refine ⟨(i : Int) + 1, hr, ?_, Or.inr ⟨by omega, by omega⟩, ?_⟩
    · simp only [INI_GLOBAL_SECTION]; omega
    · have hne : ((i : Int) + 1) ≠ INI_NOT_FOUND := by simp only [INI_NOT_FOUND]; omega
      simp [ini_section_exists, hr, hne]
  · have hr := h2 (fun i hi he => hex ⟨i, hi, he⟩)
    refine ⟨INI_NOT_FOUND, hr, by decide, Or.inl rfl, ?_⟩
    simp [ini_section_exists, hr]

/-- Of the two sections called `s`, the first one is returned. -/
theorem ini_find_section_first_match_witness :
    ini_sections_defined duplicates_doc ∧ (∀ c ∈ "s".toList, c ≠ '\x00') ∧
      ini_find_section duplicates_doc "s".toList = some 1 :=
  ⟨by decide!, by decide,
    (ini_find_section_first_match duplicates_doc "s".toList (by decide!) (by decide)).1
      0 (by decide!) (by decide!) (fun j hj => absurd hj (Nat.not_lt_zero j))⟩

/-- C6: `ini_property_exists` and `ini_value` agree.  In a document whose
property table is initialised, for every section index and key
`ini_property_exists` is true if and only if `ini_value` is not `NULL`; when no
property of the section carries the key the former is false and the latter is
`NULL`. -/
theorem ini_property_exists_iff_value (ini : ini_t) (s : Int) (k : List Char)
    (hdef : ini_properties_defined ini) (hk : ∀ c ∈ k, c ≠ '\x00') :
    (∃ b r, ini_property_exists ini s k = some b ∧ ini_value ini s k = some r ∧
      (b = true ↔ r ≠ none)) ∧
    ((∀ i < ini.num_properties, ∀ e, ini_property_entry ini i = some e →
        ¬ ((e.1 : Int) = s ∧ e.2.1 = k)) →
      ini_property_exists ini s k = some false ∧ ini_value ini s k = some none) := by
  have hd : ∀ j, 0 ≤ j → j < 0 + ini.num_properties → ∃ x, ini_property_entry ini j = some x :=
    fun j _ h => properties_defined_at ini hdef j (by omega)
  obtain ⟨r, h1, h2⟩ := property_exists_loop_eq ini s k hk ini.num_properties 0 hd
  constructor
  · refine ⟨r.isSome, r, h2, h1, ?_⟩
    cases r <;> simp
  · intro hnone
    have h := (value_loop_spec ini s k hk ini.num_properties 0 hd).2
      (fun j _ h => hnone j (by omega))
    have hr : r = none := by
      rw [h] at h1
      exact (Option.some.inj h1).symm
    subst hr
    exact ⟨h2, h⟩

/-- The key `port` of section 2 of the scenario. -/
theorem ini_property_exists_iff_value_witness :
    ini_properties_defined scenario_doc ∧ (∀ c ∈ "port".toList, c ≠ '\x00') ∧
      (∃ b r, ini_property_exists scenario_doc 2 "port".toList = some b ∧
        ini_value scenario_doc 2 "port".toList = some r ∧ (b = true ↔ r ≠ none)) :=
  ⟨by decide!, by decide,
    (ini_property_exists_iff_value scenario_doc 2 "port".toList (by decide!) (by decide)).1⟩

/-! ## Comments -/

theorem skip_comment_body (c t2 : List Char) (hc : '\n' ∉ c) (p : _ini_locals) :
    _ini_skip_comment (c ++ '\n' :: t2) p = _ini_parse_loop t2 p := by
  induction c with
  | nil => simp [_ini_skip_comment, _ini_is_newline]
  | cons a c ih =>
    have ha : a ≠ '\n' := fun e => hc (by simp [e])
    have hc' : '\n' ∉ c := fun h => hc (List.mem_cons_of_mem _ h)
    simp [_ini_skip_comment, _ini_is_newline, ha, ih hc']

theorem loop_comment_line (m : Char) (c t2 : List Char) (hm : m = ';' ∨ m = '#')
    (hc : '\n' ∉ c) (p : _ini_locals) :
    _ini_parse_loop (m :: (c ++ '\n' :: t2)) p = _ini_parse_loop t2 p := by
  rcases hm with rfl | rfl <;>
    simp [_ini_parse_loop, _ini_is_comment, skip_comment_body c t2 hc]

theorem comment_line_inert (m : Char) (c t2 : List Char) (hm : m = ';' ∨ m = '#')
    (hc : '\n' ∉ c) (t1 : List Char) :
    (∀ p, (t1 = [] ∨ t1.getLast? = some '\n') →
      _ini_parse_loop (t1 ++ m :: (c ++ '\n' :: t2)) p = _ini_parse_loop (t1 ++ t2) p) ∧
    (∀ p, t1.getLast? = some '\n' →
      _ini_skip_comment (t1 ++ m :: (c ++ '\n' :: t2)) p = _ini_skip_comment (t1 ++ t2) p) := by
  induction t1 with
  | nil =>
    refine ⟨fun p _ => ?_, fun p h => by simp at h⟩
    simpa using loop_comment_line m c t2 hm hc p
  | cons a t ih =>
    have hlast : (a :: t).getLast? = some '\n' → (t = [] ∧ a = '\n') ∨ t.getLast? = some '\n' := by
      intro h
      cases t with
      | nil => left; simpa using h
      | cons b t => right; simpa [List.getLast?_cons_cons] using h
    constructor
    · intro p h
      have h : (a :: t).getLast? = some '\n' := by
        rcases h with h | h
        · cases h
        · exact h
      simp only [List.cons_append, _ini_parse_loop]
      split
      · rfl
      · split
        · rename_i hcm
          rcases hlast h with ⟨_, rfl⟩ | ht
          · simp [_ini_is_comment] at hcm
          · exact ih.2 p ht
        · rcases hlast h with ⟨rfl, _⟩ | ht
          · exact ih.1 _ (Or.inl rfl)
          · exact ih.1 _ (Or.inr ht)
    · intro p h
      simp only [List.cons_append, _ini_skip_comment]
      split
      · rcases hlast h with ⟨rfl, _⟩ | ht
        · exact ih.1 _ (Or.inl rfl)
        · exact ih.1 _ (Or.inr ht)
      · rename_i hnl
        rcases hlast h with ⟨_, rfl⟩ | ht
        · simp [_ini_is_newline] at hnl
        · exact ih.2 p ht

/-- C7: a comment line contributes nothing.  After a text that is empty or ends
with a newline, a line made of a comment marker, any characters other than a
newline, and a newline can be removed without changing the result of
`ini_load`: the two runs are defined together and return the same document,
hence the same section table and the same property table. -/
theorem ini_load_comment_line (t1 c t2 : List Char) (m : Char)
    (ht1 : t1 = [] ∨ t1.getLast? = some '\n') (hm : m = ';' ∨ m = '#') (hc : '\n' ∉ c) :
    ini_load (t1 ++ m :: c ++ '\n' :: t2) = ini_load (t1 ++ t2) ∧
      (ini_load (t1 ++ m :: c ++ '\n' :: t2)).map ini_section_table =
        (ini_load (t1 ++ t2)).map ini_section_table ∧
      (ini_load (t1 ++ m :: c ++ '\n' :: t2)).map ini_property_table =
        (ini_load (t1 ++ t2)).map ini_property_table := by
  have e : t1 ++ m :: c ++ '\n' :: t2 = t1 ++ m :: (c ++ '\n' :: t2) := by simp
  have h : ini_load (t1 ++ m :: c ++ '\n' :: t2) = ini_load (t1 ++ t2) := by
    unfold ini_load _ini_parse_data
    rw [e, (comment_line_inert m c t2 hm hc t1).1 _ ht1]
  exact ⟨h, by rw [h], by rw [h]⟩

/-- A commented-out property between a property line and a section. -/
theorem ini_load_comment_line_witness :
    ("a=1\n".toList = [] ∨ "a=1\n".toList.getLast? = some '\n') ∧ ('#' = ';' ∨ '#' = '#') ∧
      '\n' ∉ "key=val".toList ∧
      (ini_load ("a=1\n".toList ++ '#' :: "key=val".toList ++ '\n' :: "[s]\nb=2\n".toList)).map
          ini_property_table =
        (ini_load ("a=1\n".toList ++ "[s]\nb=2\n".toList)).map ini_property_table ∧
      (ini_load ("a=1\n".toList ++ "[s]\nb=2\n".toList)).map ini_property_table =
        some [some (0, "a".toList, "1".toList), some (1, "b".toList, "2".toList)] :=
  ⟨by decide, by decide, by decide,
    (ini_load_comment_line "a=1\n".toList "key=val".toList "[s]\nb=2\n".toList '#'
      (by decide) (by decide) (by decide)).2.2, by decide!⟩

theorem loop_value_start (a rest : List Char) (ha0 : a ≠ [])
    (ha : ∀ c ∈ a, ini_value_char c) (ha1 : ∀ c ∈ a.head?, ¬ ini_space_char c)
    (br : Bool) (d : ini_t) :
    _ini_parse_loop (a ++ rest) ⟨_INI_EXPECT_VAL, br, d⟩ =
      _ini_parse_loop rest ⟨_INI_PARSING_VAL, br,
        { d with
            properties := Function.update d.properties d.num_properties
              { d.properties d.num_properties with value := some d.buf.length }
            buf := d.buf ++ a }⟩ := by
  obtain ⟨c, a', rfl⟩ := List.exists_cons_of_ne_nil ha0
  obtain ⟨h1, h2, h3, h4⟩ := ha c (List.mem_cons_self _ _)
  have h5 := ha1 c rfl
  simp only [ini_space_char, not_or] at h5
  have hl := loop_val_chars a' rest (fun d hd => ha d (List.mem_cons_of_mem _ hd))
  simp [_ini_parse_loop, _ini_is_comment, _ini_parse_char, _ini_begin_parsing, _ini_handle_newline,
    _ini_is_whitespace, _ini_is_newline, _ini_put, _ini_start_val, _ini_locals.buf_pos, hl, *]

/-- C10, as the code has it: a comment marker met inside a value that has
already started does start a comment.  For the one-line text `k=a m b` with a
newline, where `a` is not empty and holds no marker itself, the value
returned for `k` is `a`: the marker and `b` are discarded. -/
theorem ini_value_marker_in_value (k a b : List Char) (m : Char)
    (hk0 : k ≠ []) (hk : ∀ c ∈ k, ini_key_char c)
    (ha0 : a ≠ []) (ha : ∀ c ∈ a, ini_value_char c) (ha1 : ∀ c ∈ a.head?, ¬ ini_space_char c)
    (hb : '\n' ∉ b) (hm : m = ';' ∨ m = '#') :
    ∃ doc, ini_load (k ++ '=' :: a ++ m :: b ++ ['\n']) = some doc ∧
      doc.num_properties = 1 ∧ ini_property_table doc = [some (0, k, a)] ∧
      ini_value_string doc 0 k = some (some a) := by
  have hknul := key_char_ne_nul k hk
  have hanul := value_char_ne_nul a ha
  have e : k ++ '=' :: a ++ m :: b ++ ['\n'] =
      k ++ ([] ++ '=' :: (a ++ m :: (b ++ '\n' :: []))) := by simp
  obtain ⟨c, k', rfl⟩ := List.exists_cons_of_ne_nil hk0
  obtain ⟨h1, h2, h3, h4, h5, h6, h7, h8, h9⟩ := hk c (List.mem_cons_self _ _)
  have htab := tables_after_property_line ini_create [] [] tables_create (c :: k') a hknul hanul
  refine ⟨_, ?_, ?_, htab.2, ?_⟩
  · unfold ini_load _ini_parse_data
    rw [e, List.cons_append, loop_key_start c _ h1 h2 h4 h5 h6 h7 h9, ← List.cons_append,
      loop_key_chars (c :: k') _ hk, loop_key_end [] _ (by simp),
      loop_value_start a _ ha0 ha ha1, loop_comment_line m b [] hm hb]
    simp [_ini_parse_loop, _ini_parse_finish, _ini_put, _ini_start_key, ini_create, Nat.add_assoc]
  · rfl
  · have hs := strcmp_eq_of_cstr ((c :: k') ++ '\x00' :: (a ++ ['\x00'])) (c :: k') (c :: k')
      (cstr_append (c :: k') _ hknul) hknul
    have hs2 := cstr_append a [] hanul
    simp only [List.cons_append] at hs
    simp [ini_value_string, ini_value, _ini_value_loop, ini_create, _ini_str,
      hs, ini_string_at, hs2]

/-- The line `k=a b; x=1`: the value returned for `k` is `a b`. -/
theorem ini_value_marker_in_value_witness :
    ∃ doc, ini_load ("k".toList ++ '=' :: "a b".toList ++ ';' :: " x=1".toList ++ ['\n'])
        = some doc ∧
      doc.num_properties = 1 ∧ ini_property_table doc = [some (0, "k".toList, "a b".toList)] ∧
      ini_value_string doc 0 "k".toList = some (some "a b".toList) :=
  ini_value_marker_in_value "k".toList "a b".toList " x=1".toList ';'
    (by decide) (by decide) (by decide) (by decide) (by decide) (by decide) (by decide)

/-- C10 as it is written fails: for `k=a;b` the value returned for `k` is `a`,
not `a;b`, and with a following line `d=e` the document has the single
property `k = ad=e` instead of the two properties `k = a;b` and `d = e`. -/
theorem ini_value_marker_in_value_counterexample :
    (ini_load "k=a;b\n".toList).bind (fun doc => ini_value_string doc 0 "k".toList)
        = some (some "a".toList) ∧
      (ini_load "k=a;b\n".toList).bind (fun doc => ini_value_string doc 0 "k".toList)
        ≠ some (some "a;b".toList) ∧
      (ini_load "k=a;b\nd=e\n".toList).map ini_property_table
        = some [some (0, "k".toList, "ad=e".toList)] := by
  refine ⟨?_, ?_, ?_⟩ <;> decide!

/-! ## A newline met while a key is expected starts a key -/

/-- C2 at the input `[a]`, `[b]` on two lines: the newline that follows `[a]`
starts a key, the second header is copied into that key, and only section `a`
is registered; looking up `b` gives `INI_NOT_FOUND` where the claim has 2. -/
theorem ini_find_section_consecutive_headers :
    (ini_load "[a]\n[b]\n".toList).map ini_section_table = some [some "a".toList] ∧
      (ini_load "[a]\n[b]\n".toList).bind (fun doc => ini_find_section doc "a".toList) = some 1 ∧
      (ini_load "[a]\n[b]\n".toList).bind (fun doc => ini_find_section doc "b".toList)
        = some INI_NOT_FOUND ∧
      (ini_load "[a]\nx=1\n[b]\n".toList).bind (fun doc => ini_find_section doc "b".toList)
        = some 2 := by
  refine ⟨?_, ?_, ?_, ?_⟩ <;> decide!

/-- C8 at the input of the claim: with the empty line before `[s]` no section
is registered and `b=2` is stored in the global section under the key `[s]b`;
without it section `s` owns `b=2`. -/
theorem ini_load_blank_line_before_header :
    (ini_load "a=1\n\n[s]\nb=2\n".toList).map ini_section_table = some [] ∧
      (ini_load "a=1\n\n[s]\nb=2\n".toList).map ini_property_table
        = some [some (0, "a".toList, "1".toList), some (0, "[s]b".toList, "2".toList)] ∧
      (ini_load "a=1\n[s]\nb=2\n".toList).map ini_section_table = some [some "s".toList] ∧
      (ini_load "a=1\n[s]\nb=2\n".toList).map ini_property_table
        = some [some (0, "a".toList, "1".toList), some (1, "b".toList, "2".toList)] := by
  refine ⟨?_, ?_, ?_, ?_⟩ <;> decide!

/-- C9 at the input of the claim: under a header the indented line `k=v` is
stored with the empty key, so that `ini_value` finds nothing for `k`; the same
line without indentation, or indented after a property line, is stored under
`k`. -/
theorem ini_load_indented_line_after_header :
    (ini_load "[s]\n  k=v\n".toList).map ini_property_table
        = some [some (1, [], "v".toList)] ∧
      (ini_load "[s]\n  k=v\n".toList).bind (fun doc => ini_value_string doc 1 "k".toList)
        = some none ∧
      (ini_load "[s]\nk=v\n".toList).bind (fun doc => ini_value_string doc 1 "k".toList)
        = some (some "v".toList) ∧
      (ini_load "a=1\n  k=v\n".toList).bind (fun doc => ini_value_string doc 0 "k".toList)
        = some (some "v".toList) := by
  refine ⟨?_, ?_, ?_, ?_⟩ <;> decide!

/-! ## Running the loop over a text followed by more text -/

/-- If the loop over `t` returns, then over `t ++ rest` it either goes on with
`rest` from the state reached, or has returned at a NUL inside `t`. -/
theorem loop_append (t rest : List Char) :
    (∀ p p', _ini_parse_loop t p = some p' →
      _ini_parse_loop (t ++ rest) p = _ini_parse_loop rest p' ∨
      _ini_parse_loop (t ++ rest) p = some p') ∧
    (∀ p p', _ini_skip_comment t p = some p' →
      _ini_skip_comment (t ++ rest) p = _ini_parse_loop rest p' ∨
      _ini_skip_comment (t ++ rest) p = some p') := by
  induction t with
  | nil =>
    refine ⟨fun p p' h => ?_, fun p p' h => ?_⟩
    · simp only [_ini_parse_loop, Option.some.injEq] at h
      subst h
      exact Or.inl rfl
    · simp [_ini_skip_comment] at h
  | cons a t ih =>
    constructor
    · intro p p' h
      simp only [List.cons_append, _ini_parse_loop] at h ⊢
      split
      · rename_i h0
        simp only [h0, if_true] at h
        exact Or.inr h
      · rename_i h0
        simp only [h0, if_false] at h
        split
        · rename_i hc
          simp only [hc, if_true] at h
          exact ih.2 p p' h
        · rename_i hc
          simp only [hc] at h
          exact ih.1 _ p' h
    · intro p p' h
      simp only [List.cons_append, _ini_skip_comment] at h ⊢
      split
      · rename_i hn
        simp only [hn, if_true] at h
        exact ih.1 p p' h
      · rename_i hn
        simp only [hn] at h
        exact ih.2 p p' h

/-- Over a text without NUL the loop goes on with what follows. -/
theorem loop_append_of_no_nul (t rest : List Char) (ht : ∀ c ∈ t, c ≠ '\x00') :
    (∀ p p', _ini_parse_loop t p = some p' →
      _ini_parse_loop (t ++ rest) p = _ini_parse_loop rest p') ∧
    (∀ p p', _ini_skip_comment t p = some p' →
      _ini_skip_comment (t ++ rest) p = _ini_parse_loop rest p') := by
  induction t with
  | nil =>
    refine ⟨fun p p' h => ?_, fun p p' h => ?_⟩
    · simp only [_ini_parse_loop, Option.some.injEq] at h
      subst h
      rfl
    · simp [_ini_skip_comment] at h
  | cons a t ih =>
    have ha : a ≠ '\x00' := ht a (List.mem_cons_self _ _)
    have ih := ih (fun c hc => ht c (List.mem_cons_of_mem _ hc))
    constructor
    · intro p p' h
      simp only [List.cons_append, _ini_parse_loop, ha, if_false] at h ⊢
      split
      · rename_i hc
        simp only [hc, if_true] at h
        exact ih.2 p p' h
      · rename_i hc
        simp only [hc] at h
        exact ih.1 _ p' h
    · intro p p' h
      simp only [List.cons_append, _ini_skip_comment] at h ⊢
      split
      · rename_i hn
        simp only [hn, if_true] at h
        exact ih.1 p p' h
      · rename_i hn
        simp only [hn] at h
        exact ih.2 p p' h

theorem finish_after_newline (p : _ini_locals) (hs : p.parser_state = _INI_PARSING_VAL) :
    (_ini_parse_loop ['\n'] p).map _ini_parse_finish = some (_ini_parse_finish p) := by
  obtain ⟨st, br, d⟩ := p
  simp only at hs
  subst hs
  simp [_ini_parse_loop, _ini_is_comment, _ini_parse_char, _ini_begin_parsing, _ini_is_newline,
    _ini_parse_finish, _ini_put]

theorem entry_after_property_line (d : ini_t) (k v : List Char)
    (hk : ∀ c ∈ k, c ≠ '\x00') (hv : ∀ c ∈ v, c ≠ '\x00') :
    ini_property_entry
      { d with
          properties := Function.update d.properties d.num_properties
            ⟨some d.num_sections, some d.buf.length, some (d.buf.length + k.length + 1)⟩
          buf := d.buf ++ (k ++ '\x00' :: (v ++ ['\x00']))
          num_properties := d.num_properties + 1 }
      d.num_properties = some (d.num_sections, k, v) := by
  have h1 : _ini_cstr ((d.buf ++ (k ++ '\x00' :: (v ++ ['\x00']))).drop d.buf.length) = some k := by
    simp [cstr_append k _ hk]
  have h2 : _ini_cstr ((d.buf ++ (k ++ '\x00' :: (v ++ ['\x00']))).drop
      (d.buf.length + k.length + 1)) = some v := by
    have e : d.buf ++ (k ++ '\x00' :: (v ++ ['\x00'])) =
        (d.buf ++ (k ++ ['\x00'])) ++ (v ++ ['\x00']) := by simp
    rw [e, List.drop_append_of_le_length (by simp; omega)]
    rw [List.drop_eq_nil_of_le (by simp; omega)]
    simpa using cstr_append v [] hv
  simp only [ini_property_entry, ini_string_at, _ini_str, Function.update_same, h1, h2]

/-- C11: end-of-input flush.  When the loop over `t` returns in the
parsing-value state, `ini_load t` and `ini_load` of `t` followed by a newline
are the same document (same section table, same property table); its last
property is the slot the parser was filling, closed by the NUL of the flush.
When `t` ends with `k=v` read from the expect-key state, that last property is
(current section, `k`, `v`). -/
theorem ini_load_flush_final_value (t : List Char) (p : _ini_locals)
    (h : _ini_parse_loop t _ini_parse_init = some p)
    (hs : p.parser_state = _INI_PARSING_VAL) :
    ini_load (t ++ ['\n']) = ini_load t ∧
      (ini_load (t ++ ['\n'])).map ini_section_table = (ini_load t).map ini_section_table ∧
      (ini_load (t ++ ['\n'])).map ini_property_table = (ini_load t).map ini_property_table ∧
      (∃ doc, ini_load t = some doc ∧ doc.num_sections = p.ini.num_sections ∧
        doc.num_properties = p.ini.num_properties + 1 ∧
        doc.properties p.ini.num_properties = p.ini.properties p.ini.num_properties ∧
        doc.buf = p.ini.buf ++ ['\x00']) ∧
      (∀ (t1 k v : List Char) (br : Bool) (d : ini_t), t = t1 ++ k ++ '=' :: v →
        (∀ c ∈ t1, c ≠ '\x00') →
        _ini_parse_loop t1 _ini_parse_init = some ⟨_INI_EXPECT_KEY, br, d⟩ →
        (∀ c ∈ k, ini_key_char c) → (∀ c ∈ v, ini_value_char c) →
        (∀ c ∈ v.head?, ¬ ini_space_char c) →
        ∃ doc, ini_load t = some doc ∧ doc.num_properties = d.num_properties + 1 ∧
          ini_property_entry doc d.num_properties = some (d.num_sections, k, v)) := by
  have hl : ∀ s, ini_load s = (_ini_parse_loop s _ini_parse_init).map _ini_parse_finish :=
    fun _ => rfl
  have heq : ini_load (t ++ ['\n']) = ini_load t := by
    rw [hl, hl, h]
    rcases (loop_append t ['\n']).1 _ p h with h1 | h1
    · rw [h1, finish_after_newline p hs]; rfl
    · rw [h1]
  refine ⟨heq, by rw [heq], by rw [heq], ?_, ?_⟩
  · refine ⟨_ini_parse_finish p, by rw [hl, h]; rfl, ?_, ?_, ?_, ?_⟩ <;>
      simp [_ini_parse_finish, hs, _ini_put]
  · intro t1 k v br d ht ht1 h1 hk hv hv0
    have e : t ++ ['\n'] = t1 ++ (k ++ ([] ++ '=' :: ([] ++ (v ++ '\n' :: [])))) := by
      simp [ht]
    have hrun := loop_property_line_expect k [] [] v [] hk (fun _ => rfl) (by simp) (by simp)
      hv hv0 br d
    refine ⟨_, ?_, ?_, entry_after_property_line d k v (key_char_ne_nul k hk)
      (value_char_ne_nul v hv)⟩
    · rw [← heq, hl, e, (loop_append_of_no_nul t1 _ ht1).1 _ _ h1, hrun]
      simp only [_ini_parse_loop, Option.map_some', _ini_parse_finish, parsing_val_key]
      rfl
    · rfl

/-- The scenario of the specification without its final newline. -/
theorem ini_load_flush_final_value_witness :
    (_ini_parse_loop scenario_text_unterminated _ini_parse_init).map (fun p => p.parser_state)
        = some _INI_PARSING_VAL ∧
      (ini_load (scenario_text_unterminated ++ ['\n'])).map ini_property_table =
        (ini_load scenario_text_unterminated).map ini_property_table ∧
      (ini_load scenario_text_unterminated).map ini_property_table =
        some [some (0, "network".toList, "wireless".toList),
              some (1, "name".toList, "John Doe".toList),
              some (2, "port".toList, "143".toList)] := by
  have hsome : (_ini_parse_loop scenario_text_unterminated _ini_parse_init).isSome = true := by
    decide!
  obtain ⟨p, hp⟩ := Option.isSome_iff_exists.1 hsome
  have hst : (_ini_parse_loop scenario_text_unterminated _ini_parse_init).map
      (fun p => p.parser_state) = some _INI_PARSING_VAL := by decide!
  have hs : p.parser_state = _INI_PARSING_VAL := by
    rw [hp] at hst
    exact Option.some.inj hst
  exact ⟨hst, (ini_load_flush_final_value _ p hp hs).2.2.1, by decide!⟩

/-! ## Unterminated comments, the empty text -/

theorem skip_comment_unterminated (c : List Char) (hc : '\n' ∉ c) (p : _ini_locals) :
    _ini_skip_comment c p = none := by
  induction c with
  | nil => rfl
  | cons a c ih =>
    have ha : a ≠ '\n' := fun e => hc (by simp [e])
    simp [_ini_skip_comment, _ini_is_newline, ha, ih (fun h => hc (List.mem_cons_of_mem _ h))]

/-- C12 at the inputs of the claim: for `#` and for `a=1`, newline, `; note`
the run of `_ini_parse_data` has no result, because the comment loop
reads past the terminating NUL. -/
theorem ini_load_unterminated_comment :
    ini_load "#".toList = none ∧ ini_load "a=1\n; note".toList = none ∧
      (ini_load "a=1\n; note\n".toList).map ini_property_table
        = some [some (0, "a".toList, "1".toList)] := by
  refine ⟨?_, ?_, by decide!⟩
  · exact Option.isNone_iff_eq_none.1 (by decide!)
  · exact Option.isNone_iff_eq_none.1 (by decide!)

/-- C15: the empty text gives the empty document, on which every lookup
fails: `ini_find_section` returns `INI_NOT_FOUND`, `ini_section_exists` and
`ini_property_exists` return false and `ini_value` returns `NULL`. -/
theorem ini_load_empty :
    ∃ doc, ini_load [] = some doc ∧ doc.num_sections = 0 ∧ doc.num_properties = 0 ∧
      ∀ (name : List Char) (s : Int) (k : List Char),
        ini_find_section doc name = some INI_NOT_FOUND ∧
        ini_section_exists doc name = some false ∧
        ini_property_exists doc s k = some false ∧
        ini_value doc s k = some none :=
  ⟨ini_create, rfl, rfl, rfl, fun _ _ _ => ⟨rfl, rfl, rfl, rfl⟩⟩

/-! ## Typed accessors -/

theorem value_string_pointer (ini : ini_t) (s : Int) (k v : List Char)
    (h : ini_value_string ini s k = some (some v)) :
    ∃ off, ini_value ini s k = some (some off) ∧ _ini_cstr (_ini_str ini off) = some v := by
  unfold ini_value_string at h
  rcases hv : ini_value ini s k with _ | _ | off
  · simp [hv] at h
  · simp [hv] at h
  · simp only [hv, ini_string_at] at h
    cases hc : _ini_cstr (_ini_str ini off) with
    | none => simp [hc] at h
    | some w =>
      simp only [hc, Option.map_some', Option.some.injEq] at h
      exact ⟨off, rfl, by rw [hc, h]⟩

theorem cstr_split (m v : List Char) (h : _ini_cstr m = some v) :
    ∃ rest, m = v ++ '\x00' :: rest := by
  induction m generalizing v with
  | nil => simp [_ini_cstr] at h
  | cons a m ih =>
    simp only [_ini_cstr] at h
    split at h
    · rename_i ha
      cases h
      exact ⟨m, by simp [ha]⟩
    · cases hm : _ini_cstr m with
      | none => simp [hm] at h
      | some t =>
        simp only [hm, Option.map_some', Option.some.injEq] at h
        subst h
        obtain ⟨rest, hr⟩ := ih t hm
        exact ⟨rest, by simp [hr]⟩

/-- C13: `ini_value_as_bool` is exact match against `true`.  When `ini_value`
returns a pointer to the string `v`, the result is true if and only if `v` is
the four characters `true`; it is false for `True`, `1`, `false`, the empty
string, `true` followed by a blank, and every string of digits. -/
theorem ini_value_as_bool_exact (ini : ini_t) (s : Int) (k v : List Char)
    (hv : ini_value_string ini s k = some (some v)) :
    ini_value_as_bool ini s k = some (decide (v = "true".toList)) ∧
      (v ∈ ["True".toList, "1".toList, "false".toList, [], "true ".toList] →
        ini_value_as_bool ini s k = some false) ∧
      ((∀ c ∈ v, c.isDigit = true) → ini_value_as_bool ini s k = some false) := by
  obtain ⟨off, h1, h2⟩ := value_string_pointer ini s k v hv
  have h : ini_value_as_bool ini s k = some (decide (v = "true".toList)) := by
    unfold ini_value_as_bool
    simp only [h1]
    exact strcmp_eq_of_cstr _ v _ h2 (by decide)
  refine ⟨h, ?_, ?_⟩
  · intro hmem
    rw [h]
    simp only [List.mem_cons, List.mem_singleton, List.not_mem_nil, or_false] at hmem
    rcases hmem with rfl | rfl | rfl | rfl | rfl <;> decide
  · intro hd
    rw [h]
    have : v ≠ "true".toList := by
      rintro rfl
      exact absurd (hd 't' (by decide)) (by decide)
    exact congrArg some (decide_eq_false this)

/-- The keys `d` (value `true`) and `a` (value `12.34`) of a sample text. -/
theorem ini_value_as_bool_exact_witness :
    ini_value_string typed_doc 0 "d".toList = some (some "true".toList) ∧
      ini_value_as_bool typed_doc 0 "d".toList = some true ∧
      ini_value_as_bool typed_doc 0 "b".toList = some false :=
  ⟨by decide!, (ini_value_as_bool_exact typed_doc 0 "d".toList "true".toList (by decide!)).1,
    by decide!⟩

theorem atoi_digits_run (d : List Char) (x : Char) (rest : List Char) (acc : Nat)
    (hd : ∀ c ∈ d, c.isDigit = true) (hx : x.isDigit = false) :
    _atoi_digits (d ++ x :: rest) acc =
      some (Nat.ofDigits 10 (d.reverse.map (fun c => c.toNat - '0'.toNat) ++ [acc])) := by
  induction d generalizing acc with
  | nil => simp [_atoi_digits, hx]
  | cons c d ih =>
    have hc := hd c (List.mem_cons_self _ _)
    have ih := ih (10 * acc + (c.toNat - '0'.toNat)) (fun a ha => hd a (List.mem_cons_of_mem _ ha))
    have hstep : _atoi_digits (c :: (d ++ x :: rest)) acc =
        _atoi_digits (d ++ x :: rest) (10 * acc + (c.toNat - '0'.toNat)) := by
      rw [_atoi_digits]
      simp only [hc, if_true]
    rw [List.cons_append, hstep, ih]
    simp only [List.reverse_cons, List.map_append, List.map_cons, List.map_nil,
      List.append_assoc, List.singleton_append, Nat.ofDigits_append, Nat.ofDigits_cons,
      Nat.ofDigits_singleton, Nat.ofDigits_nil]
    congr 1
    ring

theorem atoi_digits_value (d : List Char) (x : Char) (rest : List Char)
    (hd : ∀ c ∈ d, c.isDigit = true) (hx : x.isDigit = false) :
    _atoi_digits (d ++ x :: rest) 0 = some (ini_decimal d) := by
  rw [atoi_digits_run d x rest 0 hd hx]
  simp [ini_decimal, Nat.ofDigits_append]

theorem atoi_skip_string (v rest : List Char) :
    _atoi_skip (v ++ '\x00' :: rest) = some (v.dropWhile isspace ++ '\x00' :: rest) := by
  induction v with
  | nil => simp [_atoi_skip, isspace]
  | cons c v ih =>
    by_cases hc : isspace c = true
    · simp [_atoi_skip, hc, ih, List.dropWhile]
    · simp [_atoi_skip, hc, List.dropWhile]

theorem atoi_leading_run (d suffix rest : List Char) (hd0 : d ≠ [])
    (hd : ∀ c ∈ d, c.isDigit = true) (hs : ∀ c ∈ suffix.head?, c.isDigit = false)
    (hfit : (ini_decimal d : Int) ≤ INT_MAX) :
    atoi ((d ++ suffix) ++ '\x00' :: rest) = some (ini_decimal d : Int) := by
  obtain ⟨c, d', rfl⟩ := List.exists_cons_of_ne_nil hd0
  have hc := hd c (List.mem_cons_self _ _)
  have hsp : isspace c = false := by
    cases h : isspace c with
    | false => rfl
    | true =>
      simp only [isspace, Bool.or_eq_true, beq_iff_eq] at h
      rcases h with ((((rfl | rfl) | rfl) | rfl) | rfl) | rfl <;> simp at hc
  have hm : c ≠ '-' := by rintro rfl; exact absurd hc (by decide)
  have hp : c ≠ '+' := by rintro rfl; exact absurd hc (by decide)
  have hdig : _atoi_digits (((c :: d') ++ suffix) ++ '\x00' :: rest) 0 =
      some (ini_decimal (c :: d')) := by
    cases suffix with
    | nil =>
      simpa using atoi_digits_value (c :: d') '\x00' rest hd (by decide)
    | cons x suffix =>
      have := atoi_digits_value (c :: d') x (suffix ++ '\x00' :: rest) hd (hs x rfl)
      simpa using this
  have hres : _atoi_result (ini_decimal (c :: d') : Int) = some (ini_decimal (c :: d') : Int) := by
    unfold _atoi_result
    have h0 : INT_MIN ≤ (ini_decimal (c :: d') : Int) := by
      have : (0 : Int) ≤ (ini_decimal (c :: d') : Int) := Int.ofNat_nonneg _
      unfold INT_MIN
      omega
    simp [h0, hfit]
  have hskip : _atoi_skip (((c :: d') ++ suffix) ++ '\x00' :: rest) =
      some (((c :: d') ++ suffix) ++ '\x00' :: rest) := by
    show _atoi_skip (c :: ((d' ++ suffix) ++ '\x00' :: rest)) = _
    rw [_atoi_skip]
    simp only [hsp, Bool.false_eq_true, if_false]
    rfl
  have hcons : ((c :: d') ++ suffix) ++ '\x00' :: rest = c :: ((d' ++ suffix) ++ '\x00' :: rest) :=
    rfl
  unfold atoi
  rw [hskip]
  rw [hcons] at hdig ⊢
  simp only [hm, hp, if_false, hdig, Option.some_bind, hres]

theorem atoi_not_convertible (v rest : List Char) (h : ini_not_convertible v) :
    atoi (v ++ '\x00' :: rest) = some 0 := by
  unfold atoi
  rw [atoi_skip_string]
  unfold ini_not_convertible at h
  cases hv : v.dropWhile isspace with
  | nil =>
    simp [_atoi_digits, _atoi_result, INT_MIN, INT_MAX]
  | cons c r =>
    simp only [hv] at h
    by_cases hsign : c = '-' ∨ c = '+'
    · simp only [hsign, if_true] at h
      have hz : _atoi_digits (r ++ '\x00' :: rest) 0 = some 0 := by
        cases r with
        | nil => simp [_atoi_digits]
        | cons x r => simp [_atoi_digits, h x rfl]
      rcases hsign with rfl | rfl <;>
        simp [hz, _atoi_result, INT_MIN, INT_MAX]
    · simp only [hsign, if_false] at h
      have h1 : c ≠ '-' := fun e => hsign (Or.inl e)
      have h2 : c ≠ '+' := fun e => hsign (Or.inr e)
      simp [h1, h2, _atoi_digits, h, _atoi_result, INT_MIN, INT_MAX]

/-- C14: `ini_value_as_int` is the leading-run decimal conversion of the stored
string.  When `ini_value` returns a pointer to the string `v`: if `v` is a
non-empty run of digits `d`, denoting a number that fits in `int`, followed by
a suffix that does not start with a digit, the result is the number denoted by
`d`; if `v` has no convertible prefix the result is 0. -/
theorem ini_value_as_int_leading_run (ini : ini_t) (s : Int) (k v : List Char)
    (hv : ini_value_string ini s k = some (some v)) :
    (∀ d suffix : List Char, v = d ++ suffix → d ≠ [] → (∀ c ∈ d, c.isDigit = true) →
      (∀ c ∈ suffix.head?, c.isDigit = false) → (ini_decimal d : Int) ≤ INT_MAX →
      ini_value_as_int ini s k = some (ini_decimal d : Int)) ∧
    (ini_not_convertible v → ini_value_as_int ini s k = some 0) := by
  obtain ⟨off, h1, h2⟩ := value_string_pointer ini s k v hv
  obtain ⟨rest, hm⟩ := cstr_split _ v h2
  have hint : ini_value_as_int ini s k = atoi (v ++ '\x00' :: rest) := by
    unfold ini_value_as_int
    simp only [h1, hm]
  constructor
  · intro d suffix hvd hd0 hd hs hfit
    rw [hint, hvd]
    exact atoi_leading_run d suffix rest hd0 hd hs hfit
  · intro hno
    rw [hint]
    exact atoi_not_convertible v rest hno

/-- The values `1234`, `12.34`, `hello` and the empty value. -/
theorem ini_value_as_int_leading_run_witness :
    ini_value_string typed_doc 0 "a".toList = some (some "12.34".toList) ∧
      ini_value_as_int typed_doc 0 "a".toList = some 12 ∧
      ini_value_as_int typed_doc 0 "e".toList = some 1234 ∧
      ini_value_as_int typed_doc 0 "b".toList = some 0 ∧
      ini_value_as_int typed_doc 0 "c".toList = some 0 ∧
      (ini_load scenario_text).bind (fun doc => ini_value_as_int doc 2 "port".toList)
        = some 143 :=
  ⟨by decide!,
    (ini_value_as_int_leading_run typed_doc 0 "a".toList "12.34".toList (by decide!)).1
      "12".toList ".34".toList (by decide) (by decide) (by decide) (by decide) (by decide),
    (ini_value_as_int_leading_run typed_doc 0 "e".toList "1234".toList (by decide!)).1
      "1234".toList [] (by decide) (by decide) (by decide) (by decide) (by decide),
    (ini_value_as_int_leading_run typed_doc 0 "b".toList "hello".toList (by decide!)).2
      (by decide),
    (ini_value_as_int_leading_run typed_doc 0 "c".toList [] (by decide!)).2 (by decide),
    by decide!⟩

/-! ## Blanks inside a section header, stray text before the separator -/

/-- C16 at the inputs of the claim: with a blank inside the brackets no
section is registered and `ini_find_section` returns `INI_NOT_FOUND` for
`owner`; without blanks the section is registered with index 1. -/
theorem ini_load_padded_header :
    (ini_load "[ owner ]\n".toList).map ini_section_table = some [] ∧
      (ini_load "[ owner ]\n".toList).bind (fun doc => ini_find_section doc "owner".toList)
        = some INI_NOT_FOUND ∧
      (ini_load "[owner ]\n".toList).map ini_section_table = some [] ∧
      (ini_load "[owner ]\n".toList).bind (fun doc => ini_find_section doc "owner".toList)
        = some INI_NOT_FOUND ∧
      (ini_load "[owner]\n".toList).bind (fun doc => ini_find_section doc "owner".toList)
        = some 1 := by
  refine ⟨?_, ?_, ?_, ?_, ?_⟩ <;> decide!

/-- C17 at the input `[a b]`, newline, `x=1`: the document has one property,
whose `section` and `key` fields were never assigned (only `value` was), so
that its table entry is undefined and so is a lookup that reads it. -/
theorem ini_load_unassigned_fields :
    (ini_load "[a b]\nx=1\n".toList).map (fun doc => doc.num_properties) = some 1 ∧
      (ini_load "[a b]\nx=1\n".toList).map (fun doc => (doc.properties 0).section_) = some none ∧
      (ini_load "[a b]\nx=1\n".toList).map (fun doc => (doc.properties 0).key) = some none ∧
      (ini_load "[a b]\nx=1\n".toList).map (fun doc => (doc.properties 0).value) = some (some 5) ∧
      (ini_load "[a b]\nx=1\n".toList).map ini_property_table = some [none] ∧
      (ini_load "[a b]\nx=1\n".toList).bind (fun doc => ini_value doc 0 "x".toList) = none := by
  refine ⟨?_, ?_, ?_, ?_, ?_, ?_⟩ <;> decide!

theorem loop_sep_junk (j rest : List Char)
    (hj : ∀ c ∈ j, c ≠ '=' ∧ c ≠ '\n' ∧ c ≠ ';' ∧ c ≠ '#' ∧ c ≠ '\x00') (br : Bool) (d : ini_t) :
    _ini_parse_loop (j ++ rest) ⟨_INI_EXPECT_SEP, br, d⟩ =
      _ini_parse_loop rest ⟨_INI_EXPECT_SEP, br,
        { d with buf := d.buf ++ j.filter (fun c => !_ini_is_whitespace c) }⟩ := by
  induction j generalizing d with
  | nil => simp
  | cons c j ih =>
    obtain ⟨h1, h2, h3, h4, h5⟩ := hj c (List.mem_cons_self _ _)
    have ih := ih (fun a ha => hj a (List.mem_cons_of_mem _ ha))
    by_cases hws : _ini_is_whitespace c = true
    · simp [_ini_parse_loop, _ini_is_comment, _ini_parse_char, hws, ih, *]
    · simp [_ini_parse_loop, _ini_is_comment, _ini_parse_char, _ini_begin_parsing,
        _ini_handle_newline, _ini_is_delimeter, _ini_is_newline, _ini_put, hws, ih, *]

theorem loop_stray_line (k w j v rest : List Char) (hk : ∀ c ∈ k, ini_key_char c)
    (hw0 : w ≠ []) (hw : ∀ c ∈ w, ini_space_char c)
    (hj : ∀ c ∈ j, c ≠ '=' ∧ c ≠ '\n' ∧ c ≠ ';' ∧ c ≠ '#' ∧ c ≠ '\x00')
    (hv : ∀ c ∈ v, ini_value_char c) (hv0 : ∀ c ∈ v.head?, ¬ ini_space_char c)
    (br : Bool) (d : ini_t) :
    ∃ junk, _ini_parse_loop (k ++ (w ++ (j ++ '=' :: (v ++ '\n' :: rest))))
        ⟨_INI_PARSING_KEY, br, d⟩ =
      _ini_parse_loop rest ⟨_INI_EXPECT_KEY, br,
        { d with
            properties := Function.update d.properties d.num_properties
              { d.properties d.num_properties with
                  value := some (d.buf.length + k.length + 1 + junk.length) }
            buf := d.buf ++ (k ++ '\x00' :: (junk ++ (v ++ ['\x00'])))
            num_properties := d.num_properties + 1 }⟩ := by
  obtain ⟨s, w', rfl⟩ := List.exists_cons_of_ne_nil hw0
  have hs := hw s (List.mem_cons_self _ _)
  have hjunk : ∀ c ∈ w' ++ j, c ≠ '=' ∧ c ≠ '\n' ∧ c ≠ ';' ∧ c ≠ '#' ∧ c ≠ '\x00' := by
    intro c hc
    rcases List.mem_append.1 hc with h | h
    · rcases hw c (List.mem_cons_of_mem _ h) with rfl | rfl <;> decide
    · exact hj c h
  refine ⟨(w' ++ j).filter (fun c => !_ini_is_whitespace c), ?_⟩
  have e : k ++ (s :: w' ++ (j ++ '=' :: (v ++ '\n' :: rest))) =
      k ++ (s :: ((w' ++ j) ++ '=' :: ([] ++ (v ++ '\n' :: rest)))) := by simp
  have hstep : ∀ (tl : List Char) (d' : ini_t),
      _ini_parse_loop (s :: tl) ⟨_INI_PARSING_KEY, br, d'⟩ =
        _ini_parse_loop tl ⟨_INI_EXPECT_SEP, br, { d' with buf := d'.buf ++ ['\x00'] }⟩ := by
    intro tl d'
    rcases hs with rfl | rfl <;>
      simp [_ini_parse_loop, _ini_is_comment, _ini_parse_char, _ini_begin_parsing,
        _ini_is_whitespace, _ini_is_bracket, _ini_is_delimeter, _ini_put]
  have hsep : ∀ (tl : List Char) (d' : ini_t),
      _ini_parse_loop ('=' :: tl) ⟨_INI_EXPECT_SEP, br, d'⟩ =
        _ini_parse_loop tl ⟨_INI_EXPECT_VAL, br, d'⟩ := by
    intro tl d'
    simp [_ini_parse_loop, _ini_is_comment, _ini_parse_char, _ini_is_whitespace,
      _ini_is_delimeter]
  rw [e, loop_key_chars k _ hk, hstep, loop_sep_junk _ _ hjunk, hsep,
    loop_value [] v rest (by simp) hv hv0]
  generalize (w' ++ j).filter (fun c => !_ini_is_whitespace c) = junk
  simp [Nat.add_assoc, Nat.add_comm, Nat.add_left_comm]

theorem drop_past_front (a b : List Char) (n : Nat) (hn : n = a.length) :
    (a ++ b).drop n = b := by
  subst hn
  simp

/-- C18: stray text between a key and its `=` is ignored.  The line
`k w j = v` (blanks `w`, junk `j`) parses to the same section table (empty) and
the same property table (the single entry (0, `k`, `v`)) as the line `k=v`, and
every call of `ini_value` on the document returns `NULL` or a pointer to `v`. -/
theorem ini_load_stray_text (k w j v : List Char)
    (hk0 : k ≠ []) (hk : ∀ c ∈ k, ini_key_char c)
    (hw0 : w ≠ []) (hw : ∀ c ∈ w, ini_space_char c)
    (hj : ∀ c ∈ j, c ≠ '=' ∧ c ≠ '\n' ∧ c ≠ ';' ∧ c ≠ '#' ∧ c ≠ '\x00')
    (hv : ∀ c ∈ v, ini_value_char c) (hv0 : ∀ c ∈ v.head?, ¬ ini_space_char c) :
    ∃ doc doc', ini_load (k ++ w ++ j ++ '=' :: v ++ ['\n']) = some doc ∧
      ini_load (k ++ '=' :: v ++ ['\n']) = some doc' ∧
      ini_section_table doc = ini_section_table doc' ∧
      ini_property_table doc = ini_property_table doc' ∧
      ini_section_table doc = [] ∧
      ini_property_table doc = [some (0, k, v)] ∧
      ini_value_string doc 0 k = some (some v) ∧
      (∀ (s : Int) (key : List Char), (∀ c ∈ key, c ≠ '\x00') →
        ini_value_string doc s key = some none ∨ ini_value_string doc s key = some (some v)) := by
  have hknul := key_char_ne_nul k hk
  have hvnul := value_char_ne_nul v hv
  obtain ⟨c, k', rfl⟩ := List.exists_cons_of_ne_nil hk0
  obtain ⟨h1, h2, h3, h4, h5, h6, h7, h8, h9⟩ := hk c (List.mem_cons_self _ _)
  obtain ⟨junk, hrun⟩ := loop_stray_line (c :: k') w j v [] hk hw0 hw hj hv hv0 false
    (_ini_start_key ini_create ini_create.buf.length).1
  have e : (c :: k') ++ w ++ j ++ '=' :: v ++ ['\n'] =
      (c :: k') ++ (w ++ (j ++ '=' :: (v ++ '\n' :: []))) := by simp
  have e' : (c :: k') ++ '=' :: v ++ ['\n'] =
      (c :: k') ++ ([] ++ '=' :: ([] ++ (v ++ '\n' :: []))) := by simp
  have hrun' := loop_property_line_expect (c :: k') [] [] v [] hk (fun h => by cases h)
    (by simp) (by simp) hv hv0 false ini_create
  have htab' := tables_after_property_line ini_create [] [] tables_create (c :: k') v hknul hvnul
  rw [List.cons_append] at hrun
  have hload : ini_load ((c :: k') ++ w ++ j ++ '=' :: v ++ ['\n']) = some
      { sections := fun _ => ⟨none⟩
        properties := Function.update (fun _ => ⟨none, none, none⟩) 0
          ⟨some 0, some 0, some ((c :: k').length + 1 + junk.length)⟩
        num_sections := 0
        num_properties := 1
        buf := (c :: k') ++ '\x00' :: (junk ++ (v ++ ['\x00'])) } := by
    unfold ini_load _ini_parse_data
    rw [e, List.cons_append, loop_key_start c _ h1 h2 h4 h5 h6 h7 h9, hrun]
    simp [_ini_parse_loop, _ini_parse_finish, _ini_start_key, ini_create]
  have hload' : ini_load ((c :: k') ++ '=' :: v ++ ['\n']) = some
      { ini_create with
          properties := Function.update ini_create.properties ini_create.num_properties
            ⟨some ini_create.num_sections, some ini_create.buf.length,
              some (ini_create.buf.length + (c :: k').length + 1)⟩
          buf := ini_create.buf ++ ((c :: k') ++ '\x00' :: (v ++ ['\x00']))
          num_properties := ini_create.num_properties + 1 } := by
    unfold ini_load _ini_parse_data
    rw [e', hrun']
    simp only [_ini_parse_loop, Option.map_some', _ini_parse_finish, parsing_val_key]
    rfl
  have hkey : _ini_cstr ((c :: k') ++ '\x00' :: (junk ++ (v ++ ['\x00']))) = some (c :: k') :=
    cstr_append (c :: k') _ hknul
  have hval : _ini_cstr (((c :: k') ++ '\x00' :: (junk ++ (v ++ ['\x00']))).drop
      ((c :: k').length + 1 + junk.length)) = some v := by
    have e2 : (c :: k') ++ '\x00' :: (junk ++ (v ++ ['\x00'])) =
        ((c :: k') ++ '\x00' :: junk) ++ (v ++ ['\x00']) := by simp
    rw [e2, drop_past_front _ _ _ (by simp; omega)]
    exact cstr_append v [] hvnul
  have hentry : ini_property_entry
      { sections := fun _ => ⟨none⟩
        properties := Function.update (fun _ => ⟨none, none, none⟩) 0
          ⟨some 0, some 0, some ((c :: k').length + 1 + junk.length)⟩
        num_sections := 0
        num_properties := 1
        buf := (c :: k') ++ '\x00' :: (junk ++ (v ++ ['\x00'])) } 0 = some (0, c :: k', v) := by
    simp only [ini_property_entry, Function.update_same, ini_string_at, _ini_str, List.drop_zero,
      hkey, hval]
  have hptab : ini_property_table
      { sections := fun _ => ⟨none⟩
        properties := Function.update (fun _ => ⟨none, none, none⟩) 0
          ⟨some 0, some 0, some ((c :: k').length + 1 + junk.length)⟩
        num_sections := 0
        num_properties := 1
        buf := (c :: k') ++ '\x00' :: (junk ++ (v ++ ['\x00'])) } = [some (0, c :: k', v)] := by
    simp only [ini_property_table, List.range_succ, List.range_zero, List.nil_append,
      List.map_cons, List.map_nil, hentry]
  have hlook : ∀ (s : Int) (key : List Char), (∀ a ∈ key, a ≠ '\x00') →
      ini_value_string
        { sections := fun _ => ⟨none⟩
          properties := Function.update (fun _ => ⟨none, none, none⟩) 0
            ⟨some 0, some 0, some ((c :: k').length + 1 + junk.length)⟩
          num_sections := 0
          num_properties := 1
          buf := (c :: k') ++ '\x00' :: (junk ++ (v ++ ['\x00'])) } s key =
        if (0 : Int) = s ∧ (c :: k') = key then some (some v) else some none := by
    intro s key hkey0
    obtain ⟨voff, hvo, hstep⟩ := value_step _ s key 0 0 0 (c :: k') v hkey0 hentry
    unfold ini_value_string ini_value
    simp only [Nat.zero_add] at hstep
    rw [hstep]
    by_cases hm : ((0 : Nat) : Int) = s ∧ (c :: k') = key
    · have hm' : (0 : Int) = s ∧ (c :: k') = key := by simpa using hm
      rw [if_pos hm, if_pos hm']
      simp only [hvo, Option.map_some']
    · have hm' : ¬ ((0 : Int) = s ∧ (c :: k') = key) := by simpa using hm
      rw [if_neg hm, if_neg hm']
      simp only [_ini_value_loop]
  refine ⟨_, _, hload, hload', ?_, ?_, rfl, hptab, ?_, ?_⟩
  · exact htab'.1.symm ▸ rfl
  · rw [hptab, htab'.2]; rfl
  · rw [hlook 0 (c :: k') hknul]; simp
  · intro s key hkey0
    rw [hlook s key hkey0]
    split
    · exact Or.inr rfl
    · exact Or.inl rfl

/-- The line `k`, blanks, `junk [x]`, `=v`. -/
theorem ini_load_stray_text_witness :
    ∃ doc doc', ini_load ("k".toList ++ "  ".toList ++ "junk [x] ".toList ++ '=' :: "v".toList ++ ['\n'])
        = some doc ∧
      ini_load ("k".toList ++ '=' :: "v".toList ++ ['\n']) = some doc' ∧
      ini_section_table doc = ini_section_table doc' ∧
      ini_property_table doc = ini_property_table doc' ∧
      ini_section_table doc = [] ∧
      ini_property_table doc = [some (0, "k".toList, "v".toList)] ∧
      ini_value_string doc 0 "k".toList = some (some "v".toList) ∧
      (∀ (s : Int) (key : List Char), (∀ c ∈ key, c ≠ '\x00') →
        ini_value_string doc s key = some none ∨
        ini_value_string doc s key = some (some "v".toList)) :=
  ini_load_stray_text "k".toList "  ".toList "junk [x] ".toList "v".toList
    (by decide) (by decide) (by decide) (by decide) (by decide) (by decide) (by decide)

/-! ## The write position -/

theorem handle_newline_buf_le (c : Char) (p : _ini_locals) :
    (_ini_handle_newline c p).ini.buf.length ≤ p.ini.buf.length + 1 := by
  unfold _ini_handle_newline
  split <;> simp [_ini_put]

theorem begin_parsing_buf_le (c : Char) (p : _ini_locals) :
    (_ini_begin_parsing c p).ini.buf.length ≤ p.ini.buf.length + 1 := by
  unfold _ini_begin_parsing
  split_ifs <;> first | exact handle_newline_buf_le c p | simp [_ini_put]

theorem parse_char_buf_le (c : Char) (p : _ini_locals) :
    (_ini_parse_char c p).ini.buf.length ≤ p.ini.buf.length + 1 := by
  unfold _ini_parse_char
  split_ifs
  · simp
  · simp [_ini_start_section]
  · exact begin_parsing_buf_le c _
  · exact begin_parsing_buf_le c _
  · simp
  · exact begin_parsing_buf_le c p
  · exact begin_parsing_buf_le c p

theorem parse_finish_buf_le (p : _ini_locals) :
    (_ini_parse_finish p).buf.length ≤ p.ini.buf.length + 1 := by
  unfold _ini_parse_finish
  simp only [_ini_put]
  split_ifs <;> simp

theorem loop_buf_le (t : List Char) :
    (∀ p p', _ini_parse_loop t p = some p' →
      p'.ini.buf.length ≤ p.ini.buf.length + t.length) ∧
    (∀ p p', _ini_skip_comment t p = some p' →
      p'.ini.buf.length ≤ p.ini.buf.length + t.length) := by
  induction t with
  | nil =>
    refine ⟨fun p p' h => ?_, fun p p' h => ?_⟩
    · simp only [_ini_parse_loop, Option.some.injEq] at h
      subst h
      simp
    · simp [_ini_skip_comment] at h
  | cons a t ih =>
    constructor
    · intro p p' h
      simp only [_ini_parse_loop] at h
      split at h
      · simp only [Option.some.injEq] at h
        subst h
        simp
      · split at h
        · have := ih.2 p p' h
          simp only [List.length_cons]
          omega
        · have h1 := ih.1 _ p' h
          have h2 := parse_char_buf_le a p
          simp only [List.length_cons]
          omega
    · intro p p' h
      simp only [_ini_skip_comment] at h
      split at h
      · have := ih.1 p p' h
        simp only [List.length_cons]
        omega
      · have := ih.2 p p' h
        simp only [List.length_cons]
        omega

/-- C19: the backing buffer never needs more than input length + 1 bytes.  One
loop iteration moves `buf_pos` by at most one, and so does the flush after the
loop; after any prefix `t1` of the text `buf_pos` is at most the length of
`t1`; the final `buf_pos` is at most the length of the text plus one, hence at
most `_INI_BUF_SIZE_DEF` for a text of at most 16383 characters, so that every
write has an index below `_INI_BUF_SIZE_DEF`. -/
theorem ini_load_buf_bound (t : List Char) :
    (∀ (c : Char) (p : _ini_locals), (_ini_parse_char c p).buf_pos ≤ p.buf_pos + 1) ∧
    (∀ p : _ini_locals, (_ini_parse_finish p).buf.length ≤ p.buf_pos + 1) ∧
    (∀ (t1 t2 : List Char) (p : _ini_locals), t = t1 ++ t2 → (∀ c ∈ t1, c ≠ '\x00') →
      _ini_parse_loop t1 _ini_parse_init = some p →
      _ini_parse_loop t _ini_parse_init = _ini_parse_loop t2 p ∧ p.buf_pos ≤ t1.length) ∧
    (∀ p, _ini_parse_loop t _ini_parse_init = some p → p.buf_pos ≤ t.length) ∧
    (∀ doc, ini_load t = some doc →
      doc.buf.length ≤ t.length + 1 ∧
      (t.length ≤ 16383 → doc.buf.length ≤ _INI_BUF_SIZE_DEF)) := by
  have hinit : _ini_parse_init.ini.buf.length = 0 := rfl
  refine ⟨parse_char_buf_le, parse_finish_buf_le, ?_, ?_, ?_⟩
  · intro t1 t2 p ht ht1 h
    refine ⟨by rw [ht]; exact (loop_append_of_no_nul t1 t2 ht1).1 _ _ h, ?_⟩
    have := (loop_buf_le t1).1 _ _ h
    simp only [_ini_locals.buf_pos]
    omega
  · intro p h
    have := (loop_buf_le t).1 _ _ h
    simp only [_ini_locals.buf_pos]
    omega
  · intro doc h
    have hl : ini_load t = (_ini_parse_loop t _ini_parse_init).map _ini_parse_finish := rfl
    rw [hl] at h
    cases hp : _ini_parse_loop t _ini_parse_init with
    | none => simp [hp] at h
    | some p =>
      simp only [hp, Option.map_some', Option.some.injEq] at h
      subst h
      have h1 := (loop_buf_le t).1 _ _ hp
      have h2 := parse_finish_buf_le p
      have h3 : (_ini_parse_finish p).buf.length ≤ t.length + 1 := by omega
      refine ⟨h3, fun hn => ?_⟩
      unfold _INI_BUF_SIZE_DEF
      omega

/-! ## The two brackets are interchangeable -/

theorem swap_char_cases (c : Char) :
    (c = '[' ∧ ini_swap_char c = ']') ∨ (c = ']' ∧ ini_swap_char c = '[') ∨
      (c ≠ '[' ∧ c ≠ ']' ∧ ini_swap_char c = c) := by
  unfold ini_swap_char
  by_cases h1 : c = '['
  · left; subst h1; exact ⟨rfl, by decide⟩
  · by_cases h2 : c = ']'
    · right; left; subst h2; exact ⟨rfl, by decide⟩
    · right; right; simp [h1, h2]

theorem swap_is_bracket (c : Char) : _ini_is_bracket (ini_swap_char c) = _ini_is_bracket c := by
  rcases swap_char_cases c with ⟨rfl, h⟩ | ⟨rfl, h⟩ | ⟨_, _, h⟩ <;> rw [h] <;> decide

theorem swap_is_whitespace (c : Char) :
    _ini_is_whitespace (ini_swap_char c) = _ini_is_whitespace c := by
  rcases swap_char_cases c with ⟨rfl, h⟩ | ⟨rfl, h⟩ | ⟨_, _, h⟩ <;> rw [h] <;> decide

theorem swap_is_delimeter (c : Char) :
    _ini_is_delimeter (ini_swap_char c) = _ini_is_delimeter c := by
  rcases swap_char_cases c with ⟨rfl, h⟩ | ⟨rfl, h⟩ | ⟨_, _, h⟩ <;> rw [h] <;> decide

theorem swap_is_comment (c : Char) : _ini_is_comment (ini_swap_char c) = _ini_is_comment c := by
  rcases swap_char_cases c with ⟨rfl, h⟩ | ⟨rfl, h⟩ | ⟨_, _, h⟩ <;> rw [h] <;> decide

theorem swap_is_newline (c : Char) : _ini_is_newline (ini_swap_char c) = _ini_is_newline c := by
  rcases swap_char_cases c with ⟨rfl, h⟩ | ⟨rfl, h⟩ | ⟨_, _, h⟩ <;> rw [h] <;> decide

theorem swap_eq_nul (c : Char) : ini_swap_char c = '\x00' ↔ c = '\x00' := by
  rcases swap_char_cases c with ⟨rfl, h⟩ | ⟨rfl, h⟩ | ⟨_, _, h⟩ <;> rw [h] <;> decide

theorem swap_nul : ini_swap_char '\x00' = '\x00' := by decide

theorem handle_newline_swap (c : Char) (p : _ini_locals) :
    _ini_handle_newline (ini_swap_char c) (ini_swap_locals p) =
      ini_swap_locals (_ini_handle_newline c p) := by
  unfold _ini_handle_newline
  rw [swap_is_newline]
  split <;> simp [ini_swap_locals, ini_swap_doc, _ini_put]

theorem begin_parsing_swap (c : Char) (p : _ini_locals) :
    _ini_begin_parsing (ini_swap_char c) (ini_swap_locals p) =
      ini_swap_locals (_ini_begin_parsing c p) := by
  unfold _ini_begin_parsing
  rw [swap_is_bracket, swap_is_whitespace, swap_is_delimeter, swap_is_newline,
    handle_newline_swap]
  have e1 : (ini_swap_locals p).parser_state = p.parser_state := rfl
  have e2 : (ini_swap_locals p).in_bracket = p.in_bracket := rfl
  rw [e1, e2]
  split_ifs <;> simp [ini_swap_locals, ini_swap_doc, _ini_put, swap_nul]

theorem parse_char_swap (c : Char) (p : _ini_locals) :
    _ini_parse_char (ini_swap_char c) (ini_swap_locals p) =
      ini_swap_locals (_ini_parse_char c p) := by
  unfold _ini_parse_char
  rw [swap_is_bracket, swap_is_whitespace, swap_is_delimeter]
  have e1 : (ini_swap_locals p).parser_state = p.parser_state := rfl
  have e3 : (ini_swap_locals p).buf_pos = p.buf_pos := by
    simp [ini_swap_locals, ini_swap_doc, _ini_locals.buf_pos]
  rw [e1, e3]
  split_ifs
  · rfl
  · rfl
  · exact begin_parsing_swap c ⟨_, p.in_bracket, (_ini_start_key p.ini p.buf_pos).1⟩
  · exact begin_parsing_swap c ⟨_, p.in_bracket, (_ini_start_val p.ini p.buf_pos).1⟩
  · rfl
  · exact begin_parsing_swap c p
  · exact begin_parsing_swap c p

theorem loop_swap (t : List Char) :
    (∀ p, _ini_parse_loop (t.map ini_swap_char) (ini_swap_locals p) =
      (_ini_parse_loop t p).map ini_swap_locals) ∧
    (∀ p, _ini_skip_comment (t.map ini_swap_char) (ini_swap_locals p) =
      (_ini_skip_comment t p).map ini_swap_locals) := by
  induction t with
  | nil => exact ⟨fun p => rfl, fun p => rfl⟩
  | cons a t ih =>
    constructor
    · intro p
      simp only [List.map_cons, _ini_parse_loop, swap_eq_nul, swap_is_comment]
      split
      · rfl
      · split
        · exact ih.2 p
        · rw [parse_char_swap]
          exact ih.1 _
    · intro p
      simp only [List.map_cons, _ini_skip_comment, swap_is_newline]
      split
      · exact ih.1 p
      · exact ih.2 p

theorem parse_finish_swap (p : _ini_locals) :
    _ini_parse_finish (ini_swap_locals p) = ini_swap_doc (_ini_parse_finish p) := by
  unfold _ini_parse_finish
  have e1 : (ini_swap_locals p).parser_state = p.parser_state := rfl
  rw [e1]
  split <;> simp [ini_swap_locals, ini_swap_doc, _ini_put, swap_nul]

theorem ini_load_swap_doc (t : List Char) :
    ini_load (t.map ini_swap_char) = (ini_load t).map ini_swap_doc := by
  have hl : ∀ s, ini_load s = (_ini_parse_loop s _ini_parse_init).map _ini_parse_finish :=
    fun _ => rfl
  have hinit : ini_swap_locals _ini_parse_init = _ini_parse_init := rfl
  have hrun := (loop_swap t).1 _ini_parse_init
  rw [hinit] at hrun
  rw [hl, hl, hrun]
  cases _ini_parse_loop t _ini_parse_init with
  | none => rfl
  | some p => simp [parse_finish_swap]

theorem cstr_swap (m : List Char) :
    _ini_cstr (m.map ini_swap_char) = (_ini_cstr m).map (List.map ini_swap_char) := by
  induction m with
  | nil => rfl
  | cons a m ih =>
    simp only [List.map_cons, _ini_cstr, swap_eq_nul, ih]
    split
    · rfl
    · cases _ini_cstr m <;> rfl

theorem string_at_swap (d : ini_t) (off : Nat) :
    ini_string_at (ini_swap_doc d) off = (ini_string_at d off).map (List.map ini_swap_char) := by
  simp only [ini_string_at, _ini_str, ini_swap_doc, ← List.map_drop, cstr_swap]

theorem section_name_swap (d : ini_t) (i : Nat) :
    ini_section_name (ini_swap_doc d) i =
      (ini_section_name d i).map (List.map ini_swap_char) := by
  unfold ini_section_name
  have e : (ini_swap_doc d).sections = d.sections := rfl
  rw [e]
  cases (d.sections i).name with
  | none => rfl
  | some off => simp only [Option.some_bind, string_at_swap]

theorem property_entry_swap (d : ini_t) (i : Nat) :
    ini_property_entry (ini_swap_doc d) i =
      (ini_property_entry d i).map
        (fun e => (e.1, e.2.1.map ini_swap_char, e.2.2.map ini_swap_char)) := by
  unfold ini_property_entry
  have e : (ini_swap_doc d).properties = d.properties := rfl
  rw [e]
  rcases d.properties i with ⟨_ | s, _ | k, _ | v⟩ <;> try rfl
  simp only [string_at_swap]
  cases ini_string_at d k <;> cases ini_string_at d v <;> rfl

/-- C20: the parser does not distinguish `[` from `]`.  Exchanging the two
brackets in the text exchanges them in `buf` and changes nothing else: the
counts, the section index of every property and the offsets are the same,
and every section name, key and value is the exchanged string.  In particular
`]name[` registers the section `name` as `[name]` does, and `[a[` registers
the section `a`. -/
theorem ini_load_bracket_swap (t : List Char) :
    ini_load (t.map ini_swap_char) = (ini_load t).map ini_swap_doc ∧
    (∀ doc, ini_load t = some doc →
      ∃ doc', ini_load (t.map ini_swap_char) = some doc' ∧
        doc'.num_sections = doc.num_sections ∧ doc'.num_properties = doc.num_properties ∧
        (∀ i, (doc'.properties i).section_ = (doc.properties i).section_) ∧
        ini_section_table doc' =
          (ini_section_table doc).map (Option.map (List.map ini_swap_char)) ∧
        ini_property_table doc' =
          (ini_property_table doc).map (Option.map
            (fun e => (e.1, e.2.1.map ini_swap_char, e.2.2.map ini_swap_char)))) ∧
    (ini_load "]name[\n".toList).map ini_section_table =
      (ini_load "[name]\n".toList).map ini_section_table ∧
    (ini_load "]name[\n".toList).map ini_section_table = some [some "name".toList] ∧
    (ini_load "[a[\n".toList).map ini_section_table = some [some "a".toList] := by
  refine ⟨ini_load_swap_doc t, ?_, by decide!, by decide!, by decide!⟩
  intro doc h
  refine ⟨ini_swap_doc doc, by rw [ini_load_swap_doc, h]; rfl, rfl, rfl, fun _ => rfl, ?_, ?_⟩
  · unfold ini_section_table
    have e : (ini_swap_doc doc).num_sections = doc.num_sections := rfl
    rw [e, List.map_map]
    exact List.map_congr_left (fun i _ => section_name_swap doc i)
  · unfold ini_property_table
    have e : (ini_swap_doc doc).num_properties = doc.num_properties := rfl
    rw [e, List.map_map]
    exact List.map_congr_left (fun i _ => property_entry_swap doc i)
